import Mathlib

/-!
Verification of the core runtime of the `lang-interpreter-by-ai` tree-walking
interpreter.  The C sources (lexer.c, value.c, interpreter.c, module.c,
builtins.c) are shallowly embedded below:

* the tokenizer is a function over an explicit lexer state (`Lexer`) whose
  source is a list of characters; the C `char` value `'\0'` (returned when
  reading past the end of the NUL-terminated buffer) is modelled by
  `List.getD` with default `'\x00'`;
* bracket-depth counters are `Nat`; the C code clamps a decrement of a zero
  counter back to zero, which is exactly `Nat` truncated subtraction;
* the evaluator is embedded with an explicit fuel parameter (the language has
  unbounded recursion); `none` means the fuel ran out, `some` is the real
  result.  Environments are mutable heap objects in C, modelled by a store of
  frames addressed by index; reference counts (which only drive deallocation)
  are not modelled;
* C `double` values are modelled exactly (a rational, an infinity, or NaN)
  without rounding.
-/

set_option maxHeartbeats 1000000

namespace LangInterp

/-- Token kinds, from lexer.h (`TokenType`). -/
inductive TokenType where
  | TK_FN | TK_VAR | TK_PAT | TK_IMPORT | TK_PUB
  | TK_FOR | TK_WHILE | TK_SWITCH | TK_CASE | TK_DEFAULT
  | TK_BREAK | TK_YIELD | TK_RETURN | TK_COPY | TK_MOVE
  | TK_NULL | TK_AS | TK_OF | TK_STATIC | TK_CONST | TK_CONSTEXPR
  | TK_INT_LIT | TK_FLOAT_LIT | TK_STR_LIT | TK_IDENT
  | TK_NEWLINE | TK_SEMI
  | TK_LBRACE | TK_RBRACE | TK_LPAREN | TK_RPAREN | TK_LBRACKET | TK_RBRACKET
  | TK_LT | TK_GT | TK_COMMA | TK_DOT | TK_COLON | TK_DCOLON | TK_ARROW
  | TK_EQ | TK_PLUS | TK_MINUS | TK_STAR | TK_SLASH | TK_PERCENT
  | TK_AMP | TK_PIPE | TK_CARET | TK_TILDE | TK_BANG | TK_QUESTION
  | TK_LEQ | TK_GEQ | TK_EQEQ | TK_NEQ | TK_LSHIFT | TK_RSHIFT
  | TK_ANDAND | TK_OROR | TK_OP_CUSTOM
  | TK_EOF | TK_ERROR
  deriving DecidableEq, Repr

open TokenType

/-- A token, from lexer.h (`Token`): kind, lexeme, line, column. -/
structure Token where
  ty : TokenType
  value : String
  line : Nat
  col : Nat
  deriving DecidableEq, Repr

/-- Lexer state, from lexer.h (`Lexer`).  The peek buffer is omitted: the
claims below only concern `lex_raw`, `update_depth` and the `lexer_next`
driving loop, none of which consults the buffer. -/
structure Lexer where
  src : List Char
  pos : Nat
  line : Nat
  col : Nat
  parenDepth : Nat
  bracketDepth : Nat
  braceDepth : Nat
  lastReal : TokenType
  deriving DecidableEq, Repr

/-- The `lexer_init` function of lexer.c. -/
def lexerInit (src : List Char) : Lexer :=
  ⟨src, 0, 1, 1, 0, 0, 0, TK_EOF⟩

/-- The `cur` helper of lexer.c: the byte at the cursor, `'\0'` at (or past)
the end of the buffer. -/
def Lexer.cur (l : Lexer) : Char :=
  l.src.getD l.pos '\x00'

/-- The `peek_ch` helper of lexer.c. -/
def Lexer.peekCh (l : Lexer) : Char :=
  if l.cur = '\x00' then '\x00' else l.src.getD (l.pos + 1) '\x00'

/-- The state change of the `advance` helper of lexer.c (the consumed
character is `l.cur`). -/
def Lexer.adv (l : Lexer) : Lexer :=
  if l.cur = '\n' then
    { l with pos := l.pos + 1, line := l.line + 1, col := 1 }
  else
    { l with pos := l.pos + 1, col := l.col + 1 }

/-- The `make_tok` helper of lexer.c. -/
def mkTok (t : TokenType) (v : String) (line col : Nat) : Token :=
  ⟨t, v, line, col⟩

/-- The `can_end_stmt` table of lexer.c: tokens that may end a statement. -/
def canEndStmt (t : TokenType) : Bool :=
  match t with
  | TK_INT_LIT | TK_FLOAT_LIT | TK_STR_LIT
  | TK_IDENT | TK_NULL
  | TK_RBRACE | TK_RPAREN | TK_RBRACKET | TK_GT
  | TK_BREAK | TK_YIELD | TK_RETURN => true
  | _ => false

theorem Lexer.pos_lt_of_cur_ne (l : Lexer) (h : l.cur ≠ '\x00') :
    l.pos < l.src.length := by
  by_contra hlt
  push_neg at hlt
  exact h (List.getD_eq_default _ _ hlt)

theorem Lexer.adv_src (l : Lexer) : l.adv.src = l.src := by
  unfold Lexer.adv; split <;> rfl

theorem Lexer.adv_pos (l : Lexer) : l.adv.pos = l.pos + 1 := by
  unfold Lexer.adv; split <;> rfl

theorem Lexer.adv_line_ge (l : Lexer) : l.line ≤ l.adv.line := by
  unfold Lexer.adv; split <;> simp

theorem Lexer.adv_depths (l : Lexer) :
    l.adv.parenDepth = l.parenDepth ∧ l.adv.bracketDepth = l.bracketDepth ∧
    l.adv.braceDepth = l.braceDepth ∧ l.adv.lastReal = l.lastReal := by
  unfold Lexer.adv; split <;> exact ⟨rfl, rfl, rfl, rfl⟩

/-- Whitespace skipping at the top of `lex_raw` (spaces, tabs, carriage
returns; newlines are not skipped here). -/
def skipWs (l : Lexer) : Lexer :=
  if h : l.cur = ' ' ∨ l.cur = '\t' ∨ l.cur = '\r' then
    skipWs l.adv
  else
    l
termination_by l.src.length - l.pos
decreasing_by
  have hne : l.cur ≠ '\x00' := by rcases h with h | h | h <;> simp [h]
  have := l.pos_lt_of_cur_ne hne
  rw [Lexer.adv_src, Lexer.adv_pos]; omega

/-- The `skip_line_comment` helper of lexer.c. -/
def skipLineComment (l : Lexer) : Lexer :=
  if h : l.cur ≠ '\x00' ∧ l.cur ≠ '\n' then
    skipLineComment l.adv
  else
    l
termination_by l.src.length - l.pos
decreasing_by
  have := l.pos_lt_of_cur_ne h.1
  rw [Lexer.adv_src, Lexer.adv_pos]; omega

/-- The loop inside `skip_block_comment` of lexer.c (after the two leading
characters have been consumed). -/
def skipBlockAux (l : Lexer) : Lexer :=
  if h : l.cur ≠ '\x00' then
    if l.cur = '*' ∧ l.peekCh = '/' then
      l.adv.adv
    else
      skipBlockAux l.adv
  else
    l
termination_by l.src.length - l.pos
decreasing_by
  have := l.pos_lt_of_cur_ne h
  rw [Lexer.adv_src, Lexer.adv_pos]; omega

/-- The `skip_block_comment` helper of lexer.c: consume the two leading
characters, then scan for the closing delimiter. -/
def skipBlockComment (l : Lexer) : Lexer :=
  skipBlockAux l.adv.adv

/-- The escape translation inside `lex_string` of lexer.c: unknown escapes
pass the escaped character through. -/
def escChar (e : Char) : Char :=
  match e with
  | 'n' => '\n'
  | 't' => '\t'
  | 'r' => '\r'
  | '\\' => '\\'
  | _ => e

/-- The body-accumulating loop of `lex_string` of lexer.c. -/
def lexStringAux (quote : Char) (l : Lexer) (buf : List Char) :
    Lexer × List Char :=
  if h : l.cur ≠ '\x00' ∧ l.cur ≠ quote then
    if l.cur = '\\' then
      let l1 := l.adv
      let e := l1.cur
      lexStringAux quote l1.adv (buf ++ [escChar e])
    else
      lexStringAux quote l.adv (buf ++ [l.cur])
  else
    (l, buf)
termination_by l.src.length - l.pos
decreasing_by
  · have := l.pos_lt_of_cur_ne h.1
    rw [Lexer.adv_src, Lexer.adv_src, Lexer.adv_pos, Lexer.adv_pos]; omega
  · have := l.pos_lt_of_cur_ne h.1
    rw [Lexer.adv_src, Lexer.adv_pos]; omega

/-- The `lex_string` helper of lexer.c. -/
def lexString (l : Lexer) (quote : Char) : Token × Lexer :=
  let line := l.line
  let col := l.col
  let p := lexStringAux quote l.adv []
  let l2 := if p.1.cur = quote then p.1.adv else p.1
  (⟨TK_STR_LIT, String.mk p.2, line, col⟩, l2)

/-- A digit-accumulating loop of `lex_number` of lexer.c. -/
def lexDigits (l : Lexer) (buf : List Char) : Lexer × List Char :=
  if h : l.cur.isDigit then
    lexDigits l.adv (buf ++ [l.cur])
  else
    (l, buf)
termination_by l.src.length - l.pos
decreasing_by
  have hne : l.cur ≠ '\x00' := by
    intro he; rw [he] at h; simp [Char.isDigit] at h
  have := l.pos_lt_of_cur_ne hne
  rw [Lexer.adv_src, Lexer.adv_pos]; omega

/-- The `lex_number` helper of lexer.c: integer digits, an optional
fractional part (selected only when a digit follows the dot), and an optional
exponent; a dot or exponent makes the literal a float. -/
def lexNumber (l : Lexer) : Token × Lexer :=
  let line := l.line
  let col := l.col
  let p1 := lexDigits l []
  let hasFrac := p1.1.cur = '.' ∧ (p1.1.peekCh).isDigit
  let p2 := if hasFrac then lexDigits p1.1.adv (p1.2 ++ ['.']) else p1
  let hasExp := p2.1.cur = 'e' ∨ p2.1.cur = 'E'
  let p3 :=
    if hasExp then
      let l3 := p2.1.adv
      let buf3 := p2.2 ++ [p2.1.cur]
      let p4 :=
        if l3.cur = '+' ∨ l3.cur = '-' then (l3.adv, buf3 ++ [l3.cur])
        else (l3, buf3)
      lexDigits p4.1 p4.2
    else p2
  let isFloat := hasFrac ∨ hasExp
  (⟨if isFloat then TK_FLOAT_LIT else TK_INT_LIT, String.mk p3.2, line, col⟩,
    p3.1)

/-- The identifier-accumulating loop of `lex_ident_or_kw` of lexer.c. -/
def lexIdentAux (l : Lexer) (buf : List Char) : Lexer × List Char :=
  if h : l.cur.isAlphanum ∨ l.cur = '_' then
    lexIdentAux l.adv (buf ++ [l.cur])
  else
    (l, buf)
termination_by l.src.length - l.pos
decreasing_by
  have hne : l.cur ≠ '\x00' := by
    intro he; rw [he] at h
    rcases h with h | h
    · simp [Char.isAlphanum, Char.isAlpha, Char.isUpper, Char.isLower,
        Char.isDigit] at h
    · exact absurd h (by decide)
  have := l.pos_lt_of_cur_ne hne
  rw [Lexer.adv_src, Lexer.adv_pos]; omega

/-- The keyword table of `lex_ident_or_kw` of lexer.c. -/
def kwLookup (s : String) : Option TokenType :=
  if s = "fn" then some TK_FN
  else if s = "var" then some TK_VAR
  else if s = "pat" then some TK_PAT
  else if s = "import" then some TK_IMPORT
  else if s = "pub" then some TK_PUB
  else if s = "for" then some TK_FOR
  else if s = "while" then some TK_WHILE
  else if s = "switch" then some TK_SWITCH
  else if s = "case" then some TK_CASE
  else if s = "default" then some TK_DEFAULT
  else if s = "break" then some TK_BREAK
  else if s = "yield" then some TK_YIELD
  else if s = "return" then some TK_RETURN
  else if s = "copy" then some TK_COPY
  else if s = "move" then some TK_MOVE
  else if s = "null" then some TK_NULL
  else if s = "as" then some TK_AS
  else if s = "of" then some TK_OF
  else if s = "static" then some TK_STATIC
  else if s = "const" then some TK_CONST
  else if s = "constexpr" then some TK_CONSTEXPR
  else none

/-- The `lex_ident_or_kw` helper of lexer.c. -/
def lexIdentOrKw (l : Lexer) : Token × Lexer :=
  let line := l.line
  let col := l.col
  let p := lexIdentAux l []
  let s := String.mk p.2
  match kwLookup s with
  | some t => (⟨t, s, line, col⟩, p.1)
  | none => (⟨TK_IDENT, s, line, col⟩, p.1)

/-- The accumulating loop of `lex_custom_op` of lexer.c. -/
def lexCustomAux (l : Lexer) (buf : List Char) : Lexer × List Char :=
  if h : l.cur ≠ '"' ∧ l.cur ≠ '\x00' then
    lexCustomAux l.adv (buf ++ [l.cur])
  else
    (l, buf)
termination_by l.src.length - l.pos
decreasing_by
  have := l.pos_lt_of_cur_ne h.2
  rw [Lexer.adv_src, Lexer.adv_pos]; omega

/-- The `lex_custom_op` helper of lexer.c: quoted custom operator name. -/
def lexCustomOp (l : Lexer) : Token × Lexer :=
  let line := l.line
  let col := l.col
  let p := lexCustomAux l.adv []
  let l2 := if p.1.cur = '"' then p.1.adv else p.1
  (⟨TK_OP_CUSTOM, String.mk p.2, line, col⟩, l2)

theorem skipWs_src (l : Lexer) : (skipWs l).src = l.src := by
  induction l using skipWs.induct with
  | case1 l h ih => rw [skipWs, dif_pos h, ih, Lexer.adv_src]
  | case2 l h => rw [skipWs, dif_neg h]

theorem skipWs_pos_ge (l : Lexer) : l.pos ≤ (skipWs l).pos := by
  induction l using skipWs.induct with
  | case1 l h ih =>
    rw [skipWs, dif_pos h]
    have := l.adv_pos
    omega
  | case2 l h => rw [skipWs, dif_neg h]

theorem skipLineComment_src (l : Lexer) : (skipLineComment l).src = l.src := by
  induction l using skipLineComment.induct with
  | case1 l h ih => rw [skipLineComment, dif_pos h, ih, Lexer.adv_src]
  | case2 l h => rw [skipLineComment, dif_neg h]

theorem skipLineComment_pos_ge (l : Lexer) :
    l.pos ≤ (skipLineComment l).pos := by
  induction l using skipLineComment.induct with
  | case1 l h ih =>
    rw [skipLineComment, dif_pos h]
    have := l.adv_pos
    omega
  | case2 l h => rw [skipLineComment, dif_neg h]

theorem skipBlockAux_src (l : Lexer) : (skipBlockAux l).src = l.src := by
  induction l using skipBlockAux.induct with
  | case1 l h hin =>
    rw [skipBlockAux, dif_pos h, if_pos hin, Lexer.adv_src, Lexer.adv_src]
  | case2 l h hin ih =>
    rw [skipBlockAux, dif_pos h, if_neg hin, ih, Lexer.adv_src]
  | case3 l h => rw [skipBlockAux, dif_neg h]

theorem skipBlockAux_pos_ge (l : Lexer) : l.pos ≤ (skipBlockAux l).pos := by
  induction l using skipBlockAux.induct with
  | case1 l h hin =>
    rw [skipBlockAux, dif_pos h, if_pos hin, Lexer.adv_pos, Lexer.adv_pos]
    omega
  | case2 l h hin ih =>
    rw [skipBlockAux, dif_pos h, if_neg hin]
    have := l.adv_pos
    omega
  | case3 l h => rw [skipBlockAux, dif_neg h]

/-- The single-character token table at the bottom of `lex_raw` of lexer.c;
unknown bytes become `TK_ERROR` tokens. -/
def singleCharTy (c : Char) : TokenType :=
  match c with
  | '{' => TK_LBRACE
  | '}' => TK_RBRACE
  | '(' => TK_LPAREN
  | ')' => TK_RPAREN
  | '[' => TK_LBRACKET
  | ']' => TK_RBRACKET
  | '<' => TK_LT
  | '>' => TK_GT
  | ',' => TK_COMMA
  | '.' => TK_DOT
  | ':' => TK_COLON
  | ';' => TK_SEMI
  | '=' => TK_EQ
  | '+' => TK_PLUS
  | '-' => TK_MINUS
  | '*' => TK_STAR
  | '/' => TK_SLASH
  | '%' => TK_PERCENT
  | '&' => TK_AMP
  | '|' => TK_PIPE
  | '^' => TK_CARET
  | '~' => TK_TILDE
  | '!' => TK_BANG
  | '?' => TK_QUESTION
  | _ => TK_ERROR

/-- The two-character operator table of `lex_raw` of lexer.c. -/
def twoCharTy (c n : Char) : Option (TokenType × String) :=
  if c = '<' ∧ n = '<' then some (TK_LSHIFT, "<<")
  else if c = '>' ∧ n = '>' then some (TK_RSHIFT, ">>")
  else if c = '<' ∧ n = '=' then some (TK_LEQ, "<=")
  else if c = '>' ∧ n = '=' then some (TK_GEQ, ">=")
  else if c = '=' ∧ n = '=' then some (TK_EQEQ, "==")
  else if c = '!' ∧ n = '=' then some (TK_NEQ, "!=")
  else if c = '&' ∧ n = '&' then some (TK_ANDAND, "&&")
  else if c = '|' ∧ n = '|' then some (TK_OROR, "||")
  else if c = ':' ∧ n = ':' then some (TK_DCOLON, "::")
  else if c = '-' ∧ n = '>' then some (TK_ARROW, "->")
  else none

/-- The `lex_raw` function of lexer.c: skip whitespace and comments, then
classify the next token.  A newline is emitted as a `TK_NEWLINE` token only
when the summed bracket depth is zero and the last real token may end a
statement; otherwise it is skipped and lexing continues. -/
def lexRaw (l0 : Lexer) : Token × Lexer :=
  if (skipWs l0).cur = '\x00' then
    (mkTok TK_EOF "" (skipWs l0).line (skipWs l0).col, skipWs l0)
  else if hlc : (skipWs l0).cur = '/' ∧ (skipWs l0).peekCh = '/' then
    lexRaw (skipLineComment (skipWs l0))
  else if hbc : (skipWs l0).cur = '/' ∧ (skipWs l0).peekCh = '*' then
    lexRaw (skipBlockComment (skipWs l0))
  else if hnl : (skipWs l0).cur = '\n' then
    if (skipWs l0).parenDepth + (skipWs l0).bracketDepth +
        (skipWs l0).braceDepth = 0 ∧ canEndStmt (skipWs l0).lastReal then
      (mkTok TK_NEWLINE "\n" (skipWs l0).line (skipWs l0).col,
        (skipWs l0).adv)
    else
      lexRaw (skipWs l0).adv
  else if ((skipWs l0).cur).isDigit then lexNumber (skipWs l0)
  else if ((skipWs l0).cur).isAlpha ∨ (skipWs l0).cur = '_' then
    lexIdentOrKw (skipWs l0)
  else if (skipWs l0).cur = '\'' then lexString (skipWs l0) '\''
  else if (skipWs l0).cur = '"' then
    if (skipWs l0).lastReal = TK_FN then lexCustomOp (skipWs l0)
    else lexString (skipWs l0) '"'
  else
    match twoCharTy (skipWs l0).cur (skipWs l0).peekCh with
    | some (t, s) =>
        (mkTok t s (skipWs l0).line (skipWs l0).col, (skipWs l0).adv.adv)
    | none =>
        (mkTok (singleCharTy (skipWs l0).cur)
          (String.mk [(skipWs l0).cur]) (skipWs l0).line (skipWs l0).col,
          (skipWs l0).adv)
termination_by l0.src.length - l0.pos
decreasing_by
  · have h1 := skipWs_pos_ge l0
    have h2 := skipWs_src l0
    have h3 : (skipWs l0).cur ≠ '\x00' := by
      intro he; rw [he] at hlc; exact absurd hlc.1 (by decide)
    have h4 := Lexer.pos_lt_of_cur_ne _ h3
    have h5 : (skipWs l0).pos < (skipLineComment (skipWs l0)).pos := by
      rw [skipLineComment, dif_pos (by
        refine ⟨h3, ?_⟩
        intro he; rw [he] at hlc; exact absurd hlc.1 (by decide))]
      have h6 := skipLineComment_pos_ge (skipWs l0).adv
      have h7 := (skipWs l0).adv_pos
      omega
    rw [skipLineComment_src, h2]
    rw [h2] at h4
    omega
  · have h1 := skipWs_pos_ge l0
    have h2 := skipWs_src l0
    have h3 : (skipWs l0).cur ≠ '\x00' := by
      intro he; rw [he] at hbc; exact absurd hbc.1 (by decide)
    have h4 := Lexer.pos_lt_of_cur_ne _ h3
    have h5 : (skipWs l0).pos < (skipBlockComment (skipWs l0)).pos := by
      unfold skipBlockComment
      have h6 := skipBlockAux_pos_ge (skipWs l0).adv.adv
      have h7 := (skipWs l0).adv.adv_pos
      have h8 := (skipWs l0).adv_pos
      omega
    unfold skipBlockComment
    rw [skipBlockAux_src, Lexer.adv_src, Lexer.adv_src, h2]
    unfold skipBlockComment at h5
    rw [h2] at h4
    omega
  · have h1 := skipWs_pos_ge l0
    have h2 := skipWs_src l0
    have h3 : (skipWs l0).cur ≠ '\x00' := by
      intro he; rw [he] at hnl; exact absurd hnl (by decide)
    have h4 := Lexer.pos_lt_of_cur_ne _ h3
    have h5 := (skipWs l0).adv_pos
    rw [Lexer.adv_src, h2]
    rw [h2] at h4
    omega

/-- Relation between lexer states: `b` is reachable from `a` by scanning
only — the source is unchanged, the cursor has not moved backwards, the
bracket depths and last-real-token are untouched, and the line number has
not decreased.  Every helper called from `lex_raw` satisfies it (only
`update_depth` writes the depth fields). -/
structure ScanOnly (a b : Lexer) : Prop where
  srcEq : b.src = a.src
  posGe : a.pos ≤ b.pos
  paren : b.parenDepth = a.parenDepth
  bracket : b.bracketDepth = a.bracketDepth
  brace : b.braceDepth = a.braceDepth
  lastR : b.lastReal = a.lastReal
  lineGe : a.line ≤ b.line

theorem ScanOnly.self (a : Lexer) : ScanOnly a a :=
  ⟨Eq.refl _, le_refl _, Eq.refl _, Eq.refl _, Eq.refl _, Eq.refl _, le_refl _⟩

theorem ScanOnly.comp {a b c : Lexer} (h1 : ScanOnly a b)
    (h2 : ScanOnly b c) : ScanOnly a c :=
  ⟨h2.srcEq.trans h1.srcEq, h1.posGe.trans h2.posGe,
   h2.paren.trans h1.paren, h2.bracket.trans h1.bracket,
   h2.brace.trans h1.brace, h2.lastR.trans h1.lastR,
   h1.lineGe.trans h2.lineGe⟩

theorem scanOnly_adv (l : Lexer) : ScanOnly l l.adv := by
  obtain ⟨h1, h2, h3, h4⟩ := l.adv_depths
  exact ⟨l.adv_src, by rw [l.adv_pos]; omega, h1, h2, h3, h4, l.adv_line_ge⟩

theorem scanOnly_skipWs (l : Lexer) : ScanOnly l (skipWs l) := by
  induction l using skipWs.induct with
  | case1 l h ih => rw [skipWs, dif_pos h]; exact (scanOnly_adv l).comp ih
  | case2 l h => rw [skipWs, dif_neg h]; exact ScanOnly.self l

theorem scanOnly_skipLineComment (l : Lexer) :
    ScanOnly l (skipLineComment l) := by
  induction l using skipLineComment.induct with
  | case1 l h ih =>
    rw [skipLineComment, dif_pos h]; exact (scanOnly_adv l).comp ih
  | case2 l h => rw [skipLineComment, dif_neg h]; exact ScanOnly.self l

theorem scanOnly_skipBlockAux (l : Lexer) : ScanOnly l (skipBlockAux l) := by
  induction l using skipBlockAux.induct with
  | case1 l h hin =>
    rw [skipBlockAux, dif_pos h, if_pos hin]
    exact (scanOnly_adv l).comp (scanOnly_adv l.adv)
  | case2 l h hin ih =>
    rw [skipBlockAux, dif_pos h, if_neg hin]
    exact (scanOnly_adv l).comp ih
  | case3 l h => rw [skipBlockAux, dif_neg h]; exact ScanOnly.self l

theorem scanOnly_lexStringAux (quote : Char) (l : Lexer) (buf : List Char) :
    ScanOnly l (lexStringAux quote l buf).1 := by
  induction l, buf using lexStringAux.induct quote with
  | case1 l buf h hesc l1 e ih =>
    rw [lexStringAux, dif_pos h, if_pos hesc]
    exact ((scanOnly_adv l).comp (scanOnly_adv l.adv)).comp ih
  | case2 l buf h hesc ih =>
    rw [lexStringAux, dif_pos h, if_neg hesc]
    exact (scanOnly_adv l).comp ih
  | case3 l buf h => rw [lexStringAux, dif_neg h]; exact ScanOnly.self l

theorem scanOnly_lexDigits (l : Lexer) (buf : List Char) :
    ScanOnly l (lexDigits l buf).1 := by
  induction l, buf using lexDigits.induct with
  | case1 l buf h ih =>
    rw [lexDigits, dif_pos h]; exact (scanOnly_adv l).comp ih
  | case2 l buf h => rw [lexDigits, dif_neg h]; exact ScanOnly.self l

theorem scanOnly_lexIdentAux (l : Lexer) (buf : List Char) :
    ScanOnly l (lexIdentAux l buf).1 := by
  induction l, buf using lexIdentAux.induct with
  | case1 l buf h ih =>
    rw [lexIdentAux, dif_pos h]; exact (scanOnly_adv l).comp ih
  | case2 l buf h => rw [lexIdentAux, dif_neg h]; exact ScanOnly.self l

theorem scanOnly_lexCustomAux (l : Lexer) (buf : List Char) :
    ScanOnly l (lexCustomAux l buf).1 := by
  induction l, buf using lexCustomAux.induct with
  | case1 l buf h ih =>
    rw [lexCustomAux, dif_pos h]; exact (scanOnly_adv l).comp ih
  | case2 l buf h => rw [lexCustomAux, dif_neg h]; exact ScanOnly.self l

theorem lexDigits_pos_lt (l : Lexer) (buf : List Char) (h : l.cur.isDigit) :
    l.pos < (lexDigits l buf).1.pos := by
  rw [lexDigits, dif_pos h]
  have h1 := (scanOnly_lexDigits l.adv (buf ++ [l.cur])).posGe
  have h2 := l.adv_pos
  omega

theorem lexString_props (l : Lexer) (q : Char) :
    ScanOnly l (lexString l q).2 ∧ (lexString l q).1.line = l.line ∧
      l.pos < (lexString l q).2.pos := by
  have h1 := scanOnly_adv l
  have h2 := scanOnly_lexStringAux q l.adv []
  have h3 := l.adv_pos
  unfold lexString
  dsimp only
  split
  · refine ⟨(h1.comp h2).comp (scanOnly_adv _), rfl, ?_⟩
    have h4 := (lexStringAux q l.adv []).1.adv_pos
    have h5 := h2.posGe
    omega
  · exact ⟨h1.comp h2, rfl, by have h5 := h2.posGe; omega⟩

theorem lexCustomOp_props (l : Lexer) :
    ScanOnly l (lexCustomOp l).2 ∧ (lexCustomOp l).1.line = l.line ∧
      l.pos < (lexCustomOp l).2.pos := by
  have h1 := scanOnly_adv l
  have h2 := scanOnly_lexCustomAux l.adv []
  have h3 := l.adv_pos
  unfold lexCustomOp
  dsimp only
  split
  · refine ⟨(h1.comp h2).comp (scanOnly_adv _), rfl, ?_⟩
    have h4 := (lexCustomAux l.adv []).1.adv_pos
    have h5 := h2.posGe
    omega
  · exact ⟨h1.comp h2, rfl, by have h5 := h2.posGe; omega⟩

theorem lexNumber_props (l : Lexer) :
    ScanOnly l (lexNumber l).2 ∧ (lexNumber l).1.line = l.line ∧
      (l.cur.isDigit → l.pos < (lexNumber l).2.pos) := by
  have h1 := scanOnly_lexDigits l []
  have finish : ∀ st : Lexer,
      ScanOnly (lexDigits l []).1 st →
      ScanOnly l st ∧ l.line = l.line ∧ (l.cur.isDigit → l.pos < st.pos) := by
    intro st hrest
    refine ⟨h1.comp hrest, rfl, fun hd => ?_⟩
    have h2 := lexDigits_pos_lt l [] hd
    have h3 := hrest.posGe
    omega
  unfold lexNumber
  dsimp only
  split
  · split
    · split
      · exact finish _ (((scanOnly_adv _).comp (scanOnly_lexDigits _ _)).comp
          (((scanOnly_adv _).comp (scanOnly_adv _)).comp
            (scanOnly_lexDigits _ _)))
      · exact finish _ (((scanOnly_adv _).comp (scanOnly_lexDigits _ _)).comp
          ((scanOnly_adv _).comp (scanOnly_lexDigits _ _)))
    · exact finish _ ((scanOnly_adv _).comp (scanOnly_lexDigits _ _))
  · split
    · split
      · exact finish _ (((scanOnly_adv _).comp (scanOnly_adv _)).comp
          (scanOnly_lexDigits _ _))
      · exact finish _ ((scanOnly_adv _).comp (scanOnly_lexDigits _ _))
    · exact finish _ (ScanOnly.self _)

theorem lexIdentOrKw_props (l : Lexer) :
    ScanOnly l (lexIdentOrKw l).2 ∧ (lexIdentOrKw l).1.line = l.line ∧
      ((l.cur.isAlpha ∨ l.cur = '_') → l.pos < (lexIdentOrKw l).2.pos) := by
  have h1 := scanOnly_lexIdentAux l []
  have h2 : (l.cur.isAlpha ∨ l.cur = '_') → l.pos < (lexIdentAux l []).1.pos := by
    intro hd
    have hd' : l.cur.isAlphanum ∨ l.cur = '_' := by
      rcases hd with hd | hd
      · exact Or.inl (by simp [Char.isAlphanum, hd])
      · exact Or.inr hd
    rw [lexIdentAux, dif_pos hd']
    have h3 := (scanOnly_lexIdentAux l.adv ([] ++ [l.cur])).posGe
    have h4 := l.adv_pos
    omega
  unfold lexIdentOrKw
  dsimp only
  split <;> exact ⟨h1, rfl, h2⟩

theorem skipLineComment_pos_lt (l : Lexer) (h0 : l.cur ≠ '\x00')
    (h1 : l.cur ≠ '\n') : l.pos < (skipLineComment l).pos := by
  rw [skipLineComment, dif_pos ⟨h0, h1⟩]
  have h2 := skipLineComment_pos_ge l.adv
  have h3 := l.adv_pos
  omega

theorem skipBlockComment_pos_lt (l : Lexer) :
    l.pos < (skipBlockComment l).pos := by
  unfold skipBlockComment
  have h1 := skipBlockAux_pos_ge l.adv.adv
  have h2 := l.adv_pos
  have h3 := l.adv.adv_pos
  omega

theorem scanOnly_skipBlockComment (l : Lexer) :
    ScanOnly l (skipBlockComment l) :=
  ((scanOnly_adv l).comp (scanOnly_adv l.adv)).comp (scanOnly_skipBlockAux _)

/-- Main invariant of `lex_raw`: it never touches the bracket depths or the
last-real-token field, never moves the cursor or line backwards, the emitted
token's line is at or after the starting line, and every non-EOF token
consumes at least one character. -/
theorem lexRaw_props (l0 : Lexer) :
    ScanOnly l0 (lexRaw l0).2 ∧ l0.line ≤ (lexRaw l0).1.line ∧
      ((lexRaw l0).1.ty ≠ TK_EOF → l0.pos < (lexRaw l0).2.pos) := by
  induction l0 using lexRaw.induct with
  | case1 x h1 =>
    have hE : lexRaw x =
        (mkTok TK_EOF "" (skipWs x).line (skipWs x).col, skipWs x) := by
      rw [lexRaw, if_pos h1]
    rw [hE]
    exact ⟨scanOnly_skipWs x, (scanOnly_skipWs x).lineGe,
      fun hne => absurd rfl hne⟩
  | case2 x h1 h2 ih =>
    have hE : lexRaw x = lexRaw (skipLineComment (skipWs x)) := by
      rw [lexRaw, if_neg h1, dif_pos h2]
    have hne : (skipWs x).cur ≠ '\x00' := h1
    have hnn : (skipWs x).cur ≠ '\n' := by
      rw [h2.1]; decide
    have hstrict := skipLineComment_pos_lt (skipWs x) hne hnn
    rw [hE]
    refine ⟨((scanOnly_skipWs x).comp (scanOnly_skipLineComment _)).comp
        ih.1, ?_, fun hne2 => ?_⟩
    · calc x.line ≤ (skipWs x).line := (scanOnly_skipWs x).lineGe
        _ ≤ (skipLineComment (skipWs x)).line :=
          (scanOnly_skipLineComment _).lineGe
        _ ≤ _ := ih.2.1
    · have h3 := ih.1.posGe
      have h4 := (scanOnly_skipWs x).posGe
      omega
  | case3 x h1 h2 h3 ih =>
    have hE : lexRaw x = lexRaw (skipBlockComment (skipWs x)) := by
      rw [lexRaw, if_neg h1, dif_neg h2, dif_pos h3]
    have hstrict := skipBlockComment_pos_lt (skipWs x)
    rw [hE]
    refine ⟨((scanOnly_skipWs x).comp (scanOnly_skipBlockComment _)).comp
        ih.1, ?_, fun hne2 => ?_⟩
    · calc x.line ≤ (skipWs x).line := (scanOnly_skipWs x).lineGe
        _ ≤ (skipBlockComment (skipWs x)).line :=
          (scanOnly_skipBlockComment _).lineGe
        _ ≤ _ := ih.2.1
    · have h4 := ih.1.posGe
      have h5 := (scanOnly_skipWs x).posGe
      omega
  | case4 x h1 h2 h3 h4 h5 =>
    have hE : lexRaw x =
        (mkTok TK_NEWLINE "\n" (skipWs x).line (skipWs x).col,
          (skipWs x).adv) := by
      rw [lexRaw, if_neg h1, dif_neg h2, dif_neg h3, dif_pos h4, if_pos h5]
    rw [hE]
    refine ⟨(scanOnly_skipWs x).comp (scanOnly_adv _),
      (scanOnly_skipWs x).lineGe, fun hne2 => ?_⟩
    dsimp only
    have h6 := (skipWs x).adv_pos
    have h7 := (scanOnly_skipWs x).posGe
    omega
  | case5 x h1 h2 h3 h4 h5 ih =>
    have hE : lexRaw x = lexRaw (skipWs x).adv := by
      rw [lexRaw, if_neg h1, dif_neg h2, dif_neg h3, dif_pos h4, if_neg h5]
    rw [hE]
    refine ⟨((scanOnly_skipWs x).comp (scanOnly_adv _)).comp ih.1, ?_,
      fun hne2 => ?_⟩
    · calc x.line ≤ (skipWs x).line := (scanOnly_skipWs x).lineGe
        _ ≤ (skipWs x).adv.line := (skipWs x).adv_line_ge
        _ ≤ _ := ih.2.1
    · have h6 := ih.1.posGe
      have h7 := (scanOnly_skipWs x).posGe
      have h8 := (skipWs x).adv_pos
      omega
  | case6 x h1 h2 h3 h4 h5 =>
    have hE : lexRaw x = lexNumber (skipWs x) := by
      rw [lexRaw, if_neg h1, dif_neg h2, dif_neg h3, dif_neg h4, if_pos h5]
    obtain ⟨hs, hl, hp⟩ := lexNumber_props (skipWs x)
    rw [hE]
    refine ⟨(scanOnly_skipWs x).comp hs, ?_, fun hne2 => ?_⟩
    · rw [hl]; exact (scanOnly_skipWs x).lineGe
    · have h6 := hp h5
      have h7 := (scanOnly_skipWs x).posGe
      omega
  | case7 x h1 h2 h3 h4 h5 h6 =>
    have hE : lexRaw x = lexIdentOrKw (skipWs x) := by
      rw [lexRaw, if_neg h1, dif_neg h2, dif_neg h3, dif_neg h4, if_neg h5,
        if_pos h6]
    obtain ⟨hs, hl, hp⟩ := lexIdentOrKw_props (skipWs x)
    rw [hE]
    refine ⟨(scanOnly_skipWs x).comp hs, ?_, fun hne2 => ?_⟩
    · rw [hl]; exact (scanOnly_skipWs x).lineGe
    · have h7 := hp h6
      have h8 := (scanOnly_skipWs x).posGe
      omega
  | case8 x h1 h2 h3 h4 h5 h6 h7 =>
    have hE : lexRaw x = lexString (skipWs x) '\'' := by
      rw [lexRaw, if_neg h1, dif_neg h2, dif_neg h3, dif_neg h4, if_neg h5,
        if_neg h6, if_pos h7]
    obtain ⟨hs, hl, hp⟩ := lexString_props (skipWs x) '\''
    rw [hE]
    refine ⟨(scanOnly_skipWs x).comp hs, ?_, fun hne2 => ?_⟩
    · rw [hl]; exact (scanOnly_skipWs x).lineGe
    · have h8 := (scanOnly_skipWs x).posGe
      omega
  | case9 x h1 h2 h3 h4 h5 h6 h7 h8 h9 =>
    have hE : lexRaw x = lexCustomOp (skipWs x) := by
      rw [lexRaw, if_neg h1, dif_neg h2, dif_neg h3, dif_neg h4, if_neg h5,
        if_neg h6, if_neg h7, if_pos h8, if_pos h9]
    obtain ⟨hs, hl, hp⟩ := lexCustomOp_props (skipWs x)
    rw [hE]
    refine ⟨(scanOnly_skipWs x).comp hs, ?_, fun hne2 => ?_⟩
    · rw [hl]; exact (scanOnly_skipWs x).lineGe
    · have h10 := (scanOnly_skipWs x).posGe
      omega
  | case10 x h1 h2 h3 h4 h5 h6 h7 h8 h9 =>
    have hE : lexRaw x = lexString (skipWs x) '"' := by
      rw [lexRaw, if_neg h1, dif_neg h2, dif_neg h3, dif_neg h4, if_neg h5,
        if_neg h6, if_neg h7, if_pos h8, if_neg h9]
    obtain ⟨hs, hl, hp⟩ := lexString_props (skipWs x) '"'
    rw [hE]
    refine ⟨(scanOnly_skipWs x).comp hs, ?_, fun hne2 => ?_⟩
    · rw [hl]; exact (scanOnly_skipWs x).lineGe
    · have h10 := (scanOnly_skipWs x).posGe
      omega
  | case11 x h1 h2 h3 h4 h5 h6 h7 h8 t s hm =>
    have hE : lexRaw x =
        (mkTok t s (skipWs x).line (skipWs x).col, (skipWs x).adv.adv) := by
      rw [lexRaw, if_neg h1, dif_neg h2, dif_neg h3, dif_neg h4, if_neg h5,
        if_neg h6, if_neg h7, if_neg h8, hm]
    rw [hE]
    refine ⟨(scanOnly_skipWs x).comp
        ((scanOnly_adv _).comp (scanOnly_adv _)),
      (scanOnly_skipWs x).lineGe, fun hne2 => ?_⟩
    dsimp only
    have h9 := (scanOnly_skipWs x).posGe
    have h10 := (skipWs x).adv_pos
    have h11 := (skipWs x).adv.adv_pos
    omega
  | case12 x h1 h2 h3 h4 h5 h6 h7 h8 hm =>
    have hE : lexRaw x =
        (mkTok (singleCharTy (skipWs x).cur)
          (String.mk [(skipWs x).cur]) (skipWs x).line (skipWs x).col,
          (skipWs x).adv) := by
      rw [lexRaw, if_neg h1, dif_neg h2, dif_neg h3, dif_neg h4, if_neg h5,
        if_neg h6, if_neg h7, if_neg h8, hm]
    rw [hE]
    refine ⟨(scanOnly_skipWs x).comp (scanOnly_adv _),
      (scanOnly_skipWs x).lineGe, fun hne2 => ?_⟩
    dsimp only
    have h9 := (scanOnly_skipWs x).posGe
    have h10 := (skipWs x).adv_pos
    omega

/-- The `update_depth` function of lexer.c: maintain the three bracket
depths (a decrement below zero is clamped back to zero — `Nat` subtraction)
and remember the last real (non-newline, non-semicolon) token kind. -/
def updateDepth (l : Lexer) (t : Token) : Lexer :=
  let l1 :=
    match t.ty with
    | TK_LPAREN => { l with parenDepth := l.parenDepth + 1 }
    | TK_RPAREN => { l with parenDepth := l.parenDepth - 1 }
    | TK_LBRACKET => { l with bracketDepth := l.bracketDepth + 1 }
    | TK_RBRACKET => { l with bracketDepth := l.bracketDepth - 1 }
    | TK_LBRACE => { l with braceDepth := l.braceDepth + 1 }
    | TK_RBRACE => { l with braceDepth := l.braceDepth - 1 }
    | _ => l
  if t.ty ≠ TK_NEWLINE ∧ t.ty ≠ TK_SEMI then
    { l1 with lastReal := t.ty }
  else
    l1

/-- The `lexer_next` function of lexer.c in the peek-free driving mode used
by this development: lex one raw token, then update depths. -/
def lexerNext (l : Lexer) : Token × Lexer :=
  ((lexRaw l).1, updateDepth (lexRaw l).2 (lexRaw l).1)

theorem updateDepth_src (l : Lexer) (t : Token) :
    (updateDepth l t).src = l.src := by
  unfold updateDepth
  dsimp only
  split <;> split <;> rfl

theorem updateDepth_pos (l : Lexer) (t : Token) :
    (updateDepth l t).pos = l.pos := by
  unfold updateDepth
  dsimp only
  split <;> split <;> rfl

theorem lexRaw_eof_of_end (l : Lexer) (h : l.src.length ≤ l.pos) :
    (lexRaw l).1.ty = TK_EOF := by
  have hcur : l.cur = '\x00' := List.getD_eq_default _ _ h
  have hcond : ¬(l.cur = ' ' ∨ l.cur = '\t' ∨ l.cur = '\r') := by
    rw [hcur]; decide
  have hsw : skipWs l = l := by rw [skipWs, dif_neg hcond]
  have hE : lexRaw l =
      (mkTok TK_EOF "" (skipWs l).line (skipWs l).col, skipWs l) := by
    rw [lexRaw, hsw, if_pos hcur]
  rw [hE]
  rfl

/-- The token-pulling loop of the parser: call `lexer_next` until `TK_EOF`,
collecting the tokens that precede it. -/
def tokenizeLoop (l : Lexer) : List Token × Lexer :=
  if h : (lexerNext l).1.ty = TK_EOF then ([], (lexerNext l).2)
  else
    ((lexerNext l).1 :: (tokenizeLoop (lexerNext l).2).1,
      (tokenizeLoop (lexerNext l).2).2)
termination_by l.src.length - l.pos
decreasing_by
  obtain ⟨hscan, -, hprog⟩ := lexRaw_props l
  have h1 := hprog h
  have h2 := hscan.srcEq
  have h3 : l.pos < l.src.length := by
    by_contra hend
    push_neg at hend
    exact h (lexRaw_eof_of_end l hend)
  show (updateDepth (lexRaw l).2 (lexRaw l).1).src.length -
      (updateDepth (lexRaw l).2 (lexRaw l).1).pos < l.src.length - l.pos
  rw [updateDepth_src, updateDepth_pos, h2]
  omega

/-- Whole-input tokenization of a source text: run the token-pulling loop
from a freshly initialised lexer.  The first component is the token list
(without the final `TK_EOF`), the second the lexer state at end-of-file. -/
def tokenize (src : List Char) : List Token × Lexer :=
  tokenizeLoop (lexerInit src)

/-- C1: at a newline character, `lex_raw` emits a `TK_NEWLINE` token for
that character if and only if all three bracket depths are zero and the last
real token can end a statement (`can_end_stmt`); otherwise the newline is
discarded — lexing continues after it, and whatever token is eventually
returned lies on a later line, so no token is produced for this newline. -/
theorem newline_emission_iff (l : Lexer) (h : l.cur = '\n') :
    ((l.parenDepth = 0 ∧ l.bracketDepth = 0 ∧ l.braceDepth = 0 ∧
        canEndStmt l.lastReal = true) →
      lexRaw l = (mkTok TK_NEWLINE "\n" l.line l.col, l.adv)) ∧
    (¬(l.parenDepth = 0 ∧ l.bracketDepth = 0 ∧ l.braceDepth = 0 ∧
        canEndStmt l.lastReal = true) →
      lexRaw l = lexRaw l.adv ∧ (lexRaw l).1.line ≠ l.line) := by
  have hcond : ¬(l.cur = ' ' ∨ l.cur = '\t' ∨ l.cur = '\r') := by
    rw [h]; decide
  have hsw : skipWs l = l := by rw [skipWs, dif_neg hcond]
  have hne : ¬l.cur = '\x00' := by rw [h]; decide
  have hnc1 : ¬(l.cur = '/' ∧ l.peekCh = '/') := by
    intro hc; rw [h] at hc; exact absurd hc.1 (by decide)
  have hnc2 : ¬(l.cur = '/' ∧ l.peekCh = '*') := by
    intro hc; rw [h] at hc; exact absurd hc.1 (by decide)
  constructor
  · intro hc
    have hsum : l.parenDepth + l.bracketDepth + l.braceDepth = 0 ∧
        canEndStmt l.lastReal = true := by
      obtain ⟨h1, h2, h3, h4⟩ := hc
      exact ⟨by omega, h4⟩
    rw [lexRaw, hsw, if_neg hne, dif_neg hnc1, dif_neg hnc2, dif_pos h,
      if_pos hsum]
  · intro hc
    have hsum : ¬(l.parenDepth + l.bracketDepth + l.braceDepth = 0 ∧
        canEndStmt l.lastReal = true) := by
      intro hs
      exact hc ⟨by omega, by omega, by omega, hs.2⟩
    have hE : lexRaw l = lexRaw l.adv := by
      rw [lexRaw, hsw, if_neg hne, dif_neg hnc1, dif_neg hnc2, dif_pos h,
        if_neg hsum]
    refine ⟨hE, ?_⟩
    rw [hE]
    have h1 := (lexRaw_props l.adv).2.1
    have h2 : l.adv.line = l.line + 1 := by
      unfold Lexer.adv; rw [if_pos h]
    omega

/-- Witness for C1: in source `a\nb` after the identifier `a`, with all
depths zero and last real token `TK_IDENT`, the newline at position 1 is
emitted as a `TK_NEWLINE` token. -/
theorem newline_emission_iff_witness :
    Lexer.cur ⟨['a', '\n', 'b'], 1, 1, 2, 0, 0, 0, TK_IDENT⟩ = '\n' ∧
      lexRaw ⟨['a', '\n', 'b'], 1, 1, 2, 0, 0, 0, TK_IDENT⟩ =
        (mkTok TK_NEWLINE "\n" 1 2,
          Lexer.adv ⟨['a', '\n', 'b'], 1, 1, 2, 0, 0, 0, TK_IDENT⟩) :=
  ⟨by decide,
    (newline_emission_iff ⟨['a', '\n', 'b'], 1, 1, 2, 0, 0, 0, TK_IDENT⟩
      (by decide)).1 (by decide)⟩

/-- Clamped depth evolution for one bracket pair over a token list, exactly
as `update_depth` performs it (`Nat` subtraction clamps at zero). -/
def foldDepth (o c : TokenType) : Nat → List Token → Nat
  | d, [] => d
  | d, t :: ts =>
      foldDepth o c (if t.ty = o then d + 1 else if t.ty = c then d - 1 else d) ts

/-- Dyck check for one bracket pair: every closer must have a pending
opener, and no opener may remain at the end. -/
def dyckFrom (o c : TokenType) : List Token → Nat → Bool
  | [], d => d == 0
  | t :: ts, d =>
      if t.ty = o then dyckFrom o c ts (d + 1)
      else if t.ty = c then
        (if d = 0 then false else dyckFrom o c ts (d - 1))
      else dyckFrom o c ts d

/-- A token sequence is balanced for the bracket pair `(o, c)` when its
`o`/`c` tokens form a Dyck word. -/
def balancedFor (o c : TokenType) (ts : List Token) : Bool :=
  dyckFrom o c ts 0

theorem dyckFrom_foldDepth_eq_zero (o c : TokenType) (ts : List Token) :
    ∀ d, dyckFrom o c ts d = true → foldDepth o c d ts = 0 := by
  induction ts with
  | nil =>
    intro d hd
    simpa [dyckFrom, foldDepth] using hd
  | cons t ts ih =>
    intro d hd
    rw [dyckFrom] at hd
    rw [foldDepth]
    split at hd
    · rw [if_pos (by assumption)]
      exact ih _ hd
    · split at hd
      · split at hd
        · exact absurd hd (by decide)
        · rw [if_neg (by assumption), if_pos (by assumption)]
          exact ih _ hd
      · rw [if_neg (by assumption), if_neg (by assumption)]
        exact ih _ hd

theorem updateDepth_paren (l : Lexer) (t : Token) :
    (updateDepth l t).parenDepth =
      if t.ty = TK_LPAREN then l.parenDepth + 1
      else if t.ty = TK_RPAREN then l.parenDepth - 1
      else l.parenDepth := by
  unfold updateDepth
  dsimp only
  split <;> split <;> simp_all

theorem updateDepth_bracket (l : Lexer) (t : Token) :
    (updateDepth l t).bracketDepth =
      if t.ty = TK_LBRACKET then l.bracketDepth + 1
      else if t.ty = TK_RBRACKET then l.bracketDepth - 1
      else l.bracketDepth := by
  unfold updateDepth
  dsimp only
  split <;> split <;> simp_all

theorem updateDepth_brace (l : Lexer) (t : Token) :
    (updateDepth l t).braceDepth =
      if t.ty = TK_LBRACE then l.braceDepth + 1
      else if t.ty = TK_RBRACE then l.braceDepth - 1
      else l.braceDepth := by
  unfold updateDepth
  dsimp only
  split <;> split <;> simp_all

/-- The final depth counters of the token-pulling loop are the clamped folds
of the emitted token list over the starting depths. -/
theorem tokenizeLoop_depths (l : Lexer) :
    (tokenizeLoop l).2.parenDepth =
        foldDepth TK_LPAREN TK_RPAREN l.parenDepth (tokenizeLoop l).1 ∧
      (tokenizeLoop l).2.bracketDepth =
        foldDepth TK_LBRACKET TK_RBRACKET l.bracketDepth (tokenizeLoop l).1 ∧
      (tokenizeLoop l).2.braceDepth =
        foldDepth TK_LBRACE TK_RBRACE l.braceDepth (tokenizeLoop l).1 := by
  induction l using tokenizeLoop.induct with
  | case1 l h1 =>
    have hE : tokenizeLoop l = ([], (lexerNext l).2) := by
      rw [tokenizeLoop, dif_pos h1]
    have hscan := (lexRaw_props l).1
    rw [hE]
    unfold lexerNext at h1 ⊢
    dsimp only at h1 ⊢
    rw [foldDepth, foldDepth, foldDepth, updateDepth_paren,
      updateDepth_bracket, updateDepth_brace]
    rw [h1]
    simp only [if_neg (by decide : ¬(TK_EOF = TK_LPAREN)),
      if_neg (by decide : ¬(TK_EOF = TK_RPAREN)),
      if_neg (by decide : ¬(TK_EOF = TK_LBRACKET)),
      if_neg (by decide : ¬(TK_EOF = TK_RBRACKET)),
      if_neg (by decide : ¬(TK_EOF = TK_LBRACE)),
      if_neg (by decide : ¬(TK_EOF = TK_RBRACE))]
    exact ⟨hscan.paren, hscan.bracket, hscan.brace⟩
  | case2 l h1 ih =>
    have hE : tokenizeLoop l =
        ((lexerNext l).1 :: (tokenizeLoop (lexerNext l).2).1,
          (tokenizeLoop (lexerNext l).2).2) := by
      rw [tokenizeLoop, dif_neg h1]
    have hscan := (lexRaw_props l).1
    rw [hE]
    obtain ⟨ihp, ihb, ihc⟩ := ih
    unfold lexerNext at ihp ihb ihc ⊢
    dsimp only at ihp ihb ihc ⊢
    rw [foldDepth, foldDepth, foldDepth]
    refine ⟨?_, ?_, ?_⟩
    · rw [ihp]
      congr 1
      rw [updateDepth_paren, hscan.paren]
    · rw [ihb]
      congr 1
      rw [updateDepth_bracket, hscan.bracket]
    · rw [ihc]
      congr 1
      rw [updateDepth_brace, hscan.brace]

/-- C7 (amended): if the source's bracket tokens are balanced (each of the
three bracket pairs forms a Dyck word), then after the tokenizer has
consumed the whole input to end-of-file all three depth counters are zero.
The converse direction of the original claim fails, because `update_depth`
clamps a decrement of a zero counter: see the counterexample. -/
theorem balanced_source_depths_zero (src : List Char)
    (hp : balancedFor TK_LPAREN TK_RPAREN (tokenize src).1 = true)
    (hb : balancedFor TK_LBRACKET TK_RBRACKET (tokenize src).1 = true)
    (hc : balancedFor TK_LBRACE TK_RBRACE (tokenize src).1 = true) :
    (tokenize src).2.parenDepth = 0 ∧ (tokenize src).2.bracketDepth = 0 ∧
      (tokenize src).2.braceDepth = 0 := by
  obtain ⟨h1, h2, h3⟩ := tokenizeLoop_depths (lexerInit src)
  unfold tokenize at hp hb hc ⊢
  unfold balancedFor at hp hb hc
  refine ⟨?_, ?_, ?_⟩
  · rw [h1]
    exact dyckFrom_foldDepth_eq_zero _ _ _ 0 hp
  · rw [h2]
    exact dyckFrom_foldDepth_eq_zero _ _ _ 0 hb
  · rw [h3]
    exact dyckFrom_foldDepth_eq_zero _ _ _ 0 hc

/-- Witness for the amended C7 on the balanced source `(x)`. -/
theorem balanced_source_depths_zero_witness :
    (tokenize ['(', 'x', ')']).2.parenDepth = 0 ∧
      (tokenize ['(', 'x', ')']).2.bracketDepth = 0 ∧
      (tokenize ['(', 'x', ')']).2.braceDepth = 0 :=
  balanced_source_depths_zero ['(', 'x', ')']
    (by simp [tokenize, tokenizeLoop, lexerNext, lexRaw, skipWs, lexerInit,
      updateDepth, mkTok, Lexer.adv, Lexer.cur, Lexer.peekCh, twoCharTy,
      singleCharTy, canEndStmt, balancedFor, dyckFrom, lexIdentOrKw,
      lexIdentAux, kwLookup])
    (by simp [tokenize, tokenizeLoop, lexerNext, lexRaw, skipWs, lexerInit,
      updateDepth, mkTok, Lexer.adv, Lexer.cur, Lexer.peekCh, twoCharTy,
      singleCharTy, canEndStmt, balancedFor, dyckFrom, lexIdentOrKw,
      lexIdentAux, kwLookup])
    (by simp [tokenize, tokenizeLoop, lexerNext, lexRaw, skipWs, lexerInit,
      updateDepth, mkTok, Lexer.adv, Lexer.cur, Lexer.peekCh, twoCharTy,
      singleCharTy, canEndStmt, balancedFor, dyckFrom, lexIdentOrKw,
      lexIdentAux, kwLookup])

/-- Counterexample to C7 as stated (an `iff`): the source consisting of the
single byte `)` is not balanced — its token list is one unmatched
`TK_RPAREN` — yet at end-of-file all three depth counters are zero, because
`update_depth` clamps the decrement of the zero paren counter back to
zero. -/
theorem depths_zero_iff_balanced_counterexample :
    (tokenize [')']).1 = [⟨TK_RPAREN, ")", 1, 1⟩] ∧
      balancedFor TK_LPAREN TK_RPAREN (tokenize [')']).1 = false ∧
      (tokenize [')']).2.parenDepth = 0 ∧
      (tokenize [')']).2.bracketDepth = 0 ∧
      (tokenize [')']).2.braceDepth = 0 := by
  simp [tokenize, tokenizeLoop, lexerNext, lexRaw, skipWs, lexerInit,
    updateDepth, mkTok, Lexer.adv, Lexer.cur, Lexer.peekCh, twoCharTy,
    singleCharTy, canEndStmt, balancedFor, dyckFrom]

/-!  Value model.  C `double` values are modelled exactly: a finite double
is an exact rational (no rounding is modelled), plus the two infinities and
NaN.  The IEEE special-value structure (NaN propagation and comparison
behaviour, signed infinite results for division by zero) is preserved. -/

/-- Exact model of a C `double`. -/
inductive F64 where
  | fin (q : ℚ)
  | inf (neg : Bool)
  | nan
  deriving DecidableEq

namespace F64

/-- Negation of a double. -/
def fneg : F64 → F64
  | fin q => fin (-q)
  | inf s => inf (!s)
  | nan => nan

/-- Addition; infinities of opposite sign give NaN. -/
def add : F64 → F64 → F64
  | nan, _ => nan
  | _, nan => nan
  | inf s, inf t => if s = t then inf s else nan
  | inf s, fin _ => inf s
  | fin _, inf t => inf t
  | fin a, fin b => fin (a + b)

/-- Subtraction. -/
def sub (x y : F64) : F64 := add x (fneg y)

/-- Multiplication; an infinity times zero gives NaN. -/
def mul : F64 → F64 → F64
  | nan, _ => nan
  | _, nan => nan
  | inf s, inf t => inf (xor s t)
  | inf s, fin q => if q = 0 then nan else inf (xor s (q < 0))
  | fin q, inf t => if q = 0 then nan else inf (xor (q < 0) t)
  | fin a, fin b => fin (a * b)

/-- Division; a nonzero finite value divided by zero is a signed infinity,
zero divided by zero is NaN; anything over an infinity is zero. -/
def div : F64 → F64 → F64
  | nan, _ => nan
  | _, nan => nan
  | inf _, inf _ => nan
  | inf s, fin q => inf (xor s (q < 0))
  | fin _, inf _ => fin 0
  | fin a, fin b =>
      if b = 0 then (if a = 0 then nan else inf (a < 0))
      else fin (a / b)

/-- IEEE equality: NaN equals nothing, infinities of equal sign are equal. -/
def feq : F64 → F64 → Bool
  | nan, _ => false
  | _, nan => false
  | inf s, inf t => s = t
  | fin a, fin b => a = b
  | _, _ => false

/-- IEEE less-than: false whenever NaN is involved. -/
def flt : F64 → F64 → Bool
  | nan, _ => false
  | _, nan => false
  | inf s, inf t => s ∧ !t
  | inf s, fin _ => s
  | fin _, inf t => !t
  | fin a, fin b => a < b

/-- IEEE less-or-equal. -/
def fle (x y : F64) : Bool := flt x y || feq x y

/-- The C cast `(double)n` of a 64-bit integer (modelled exactly, without
rounding for very large magnitudes). -/
def ofInt (n : Int) : F64 := fin n

/-- The C cast `(long long)d` of a `double` truncates toward zero; the cast
is undefined behaviour for NaN, infinities and out-of-range values, which
are modelled as 0. -/
def toInt : F64 → Int
  | fin q => q.num.tdiv q.den
  | inf _ => 0
  | nan => 0

end F64

/-- AST node kinds, from ast.h (`AstNodeType`). -/
inductive AstTy where
  | AST_PROGRAM | AST_FN_DECL | AST_VAR_DECL | AST_PAT_DECL
  | AST_IMPORT_DECL | AST_IMPORT_ITEM
  | AST_IDENT | AST_INT_LIT | AST_FLOAT_LIT | AST_STR_LIT | AST_NULL_LIT
  | AST_BINOP | AST_UNOP | AST_CALL | AST_MEMBER | AST_INDEX
  | AST_TUPLE | AST_SCOPE | AST_TEMPLATE_INST
  | AST_FOR | AST_WHILE | AST_SWITCH | AST_CASE
  | AST_BREAK | AST_YIELD | AST_RETURN | AST_OPTIONAL
  | AST_COPY | AST_MOVE | AST_ASSIGN | AST_MULTI_ASSIGN
  | AST_TEMPLATE_DECL | AST_PARAM | AST_TYPE_ANN | AST_BLOCK
  deriving DecidableEq, Repr

/-- AST node, from ast.h (`struct AstNode`): a kind tag, source position,
a generic child list, the optional slots (`name`, `op`, `type_ann`, `init`,
`body`, `cond`, `alt`, `tmpl`), the literal payload union (modelled as three
separate fields), and the boolean flags.  C `char *` fields that may be NULL
are `Option`s. -/
inductive Ast where
  | mk (ty : AstTy) (line col : Nat) (children : List Ast)
      (name op : Option String)
      (tyAnn ini body cond alt tmpl : Option Ast)
      (ival : Int) (fval : F64) (sval : Option String)
      (isPub isStatic isConst isConstexpr isVariadic : Bool)

def Ast.ty : Ast → AstTy
  | .mk t .. => t

def Ast.line : Ast → Nat
  | .mk _ l .. => l

def Ast.col : Ast → Nat
  | .mk _ _ c .. => c

def Ast.children : Ast → List Ast
  | .mk _ _ _ cs .. => cs

def Ast.name : Ast → Option String
  | .mk _ _ _ _ n .. => n

def Ast.op : Ast → Option String
  | .mk _ _ _ _ _ o .. => o

def Ast.tyAnn : Ast → Option Ast
  | .mk _ _ _ _ _ _ a .. => a

def Ast.ini : Ast → Option Ast
  | .mk _ _ _ _ _ _ _ i .. => i

def Ast.body : Ast → Option Ast
  | .mk _ _ _ _ _ _ _ _ b .. => b

def Ast.cond : Ast → Option Ast
  | .mk _ _ _ _ _ _ _ _ _ c .. => c

def Ast.alt : Ast → Option Ast
  | .mk _ _ _ _ _ _ _ _ _ _ a .. => a

def Ast.tmpl : Ast → Option Ast
  | .mk _ _ _ _ _ _ _ _ _ _ _ t .. => t

def Ast.ival : Ast → Int
  | .mk _ _ _ _ _ _ _ _ _ _ _ _ i .. => i

def Ast.fval : Ast → F64
  | .mk _ _ _ _ _ _ _ _ _ _ _ _ _ f .. => f

def Ast.sval : Ast → Option String
  | .mk _ _ _ _ _ _ _ _ _ _ _ _ _ _ s .. => s

/-- Pattern descriptor, from value.h (`struct PatDef`): name and ordered
field names (`field_count` is the list length).  The `methods` environment
slot is never assigned by the interpreter and the reference count only
drives deallocation; neither is modelled. -/
structure PatDef where
  name : String
  fieldNames : List (Option String)
  deriving DecidableEq

/-- The pure built-in functions registered by builtins.c that this
development embeds (conversions and type checks); the remaining registry
entries (I/O, math, …) are external collaborators out of the core's scope
and are not modelled. -/
inductive BuiltinId where
  | bInt | bFloat | bString | bBool
  | bIsNull | bIsInt | bIsFloat | bIsString
  deriving DecidableEq

/-- Runtime value, from value.h (`struct Value`).  Environments are heap
objects; values that reference an environment (`fn.closure`, `scope.env`,
`module.env`) hold its index into the store.  Reference counts are not
modelled. -/
inductive Value where
  | VNull
  | VInt (n : Int)
  | VFloat (f : F64)
  | VString (s : String)
  | VBool (b : Bool)
  | VTuple (elems : List Value) (names : Option (List (Option String)))
  | VVariant (tag : Int) (payload : Option Value)
  | VFunction (ast : Ast) (closure : Nat) (name : Option String)
  | VPatInst (fields : List Value) (pdef : PatDef)
  | VScope (env : Nat)
  | VBuiltin (fn : BuiltinId) (name : String)
  | VOptional (payload : Option Value) (present : Bool)
  | VType (typeName : String) (pdef : Option PatDef)
  | VModule (name : String) (env : Option Nat) (pdef : Option PatDef)

open Value

/-- Environment frame, from interpreter.h (`struct Env`): an entry list
(most recently defined first, as C prepends) and a parent frame. -/
structure Frame where
  entries : List (String × Value)
  parent : Option Nat

/-- The heap of environment frames.  C allocates frames with `env_new` and
mutates them in place; the store models this with indices.  Frames are
never removed (deallocation is driven by the unmodelled reference
counts). -/
structure Store where
  frames : List Frame

/-- The `env_new` function of interpreter.c: allocate a fresh empty frame
with the given parent; returns its index. -/
def envNew (st : Store) (parent : Option Nat) : Nat × Store :=
  (st.frames.length, ⟨st.frames ++ [⟨[], parent⟩]⟩)

def Store.getFrame (st : Store) (i : Nat) : Option Frame :=
  st.frames.get? i

def Store.setFrame (st : Store) (i : Nat) (f : Frame) : Store :=
  ⟨st.frames.set i f⟩

/-- Scan of one frame's entry list (the inner loop of `env_get`). -/
def entriesGet : List (String × Value) → String → Option Value
  | [], _ => none
  | (n, v) :: rest, name => if n = name then some v else entriesGet rest name

/-- Replace the first entry with the given name, in place. -/
def entriesReplace : List (String × Value) → String → Value →
    List (String × Value)
  | [], _, _ => []
  | (n, v0) :: rest, name, v =>
      if n = name then (n, v) :: rest
      else (n, v0) :: entriesReplace rest name v

/-- The parent-chain walk of `env_get` of interpreter.c.  The chain of a
well-formed store is acyclic and no longer than the store, so the fuel
used by `envGet` never runs out there. -/
def envGetAux (st : Store) : Nat → Nat → String → Option Value
  | 0, _, _ => none
  | fuel + 1, e, name =>
      match st.getFrame e with
      | none => none
      | some f =>
          match entriesGet f.entries name with
          | some v => some v
          | none =>
              match f.parent with
              | none => none
              | some p => envGetAux st fuel p name

/-- The `env_get` function of interpreter.c: scan the frame chain innermost
first; `none` is C's NULL result. -/
def envGet (st : Store) (e : Nat) (name : String) : Option Value :=
  envGetAux st (st.frames.length + 1) e name

/-- The `env_def` function of interpreter.c: bind in the given frame,
replacing an existing entry in place, otherwise prepending. -/
def envDef (st : Store) (e : Nat) (name : String) (v : Value) : Store :=
  match st.getFrame e with
  | none => st
  | some f =>
      if (entriesGet f.entries name).isSome then
        st.setFrame e ⟨entriesReplace f.entries name v, f.parent⟩
      else
        st.setFrame e ⟨(name, v) :: f.entries, f.parent⟩

/-- The frame-chain walk of `env_find_entry` of interpreter.c, returning
the index of the nearest frame that binds the name. -/
def envFindAux (st : Store) : Nat → Nat → String → Option Nat
  | 0, _, _ => none
  | fuel + 1, e, name =>
      match st.getFrame e with
      | none => none
      | some f =>
          if (entriesGet f.entries name).isSome then some e
          else
            match f.parent with
            | none => none
            | some p => envFindAux st fuel p name

/-- The `env_set` function of interpreter.c: replace in the nearest frame
that already binds the name, else define in the current frame. -/
def envSet (st : Store) (e : Nat) (name : String) (v : Value) : Store :=
  match envFindAux st (st.frames.length + 1) e name with
  | some e' =>
      match st.getFrame e' with
      | none => st
      | some f => st.setFrame e' ⟨entriesReplace f.entries name v, f.parent⟩
  | none => envDef st e name v

/-- Control-flow signals, from interpreter.h (`Signal`). -/
inductive Sig where
  | sNone | sReturn | sBreak | sYield | sError
  deriving DecidableEq, Repr

/-- Evaluation result, from interpreter.h (`EvalResult`): a signal, an
optional value (C's `val` pointer, NULL for `sig_break` and errors), and
the error message buffer. -/
structure Res where
  sig : Sig
  val : Option Value
  msg : String

/-- The `ok` helper of interpreter.c. -/
def rOk (v : Value) : Res := ⟨.sNone, some v, ""⟩

/-- The `sig_return` helper of interpreter.c. -/
def rReturn (v : Value) : Res := ⟨.sReturn, some v, ""⟩

/-- The `sig_break` helper of interpreter.c (its value pointer is NULL). -/
def rBreak : Res := ⟨.sBreak, none, ""⟩

/-- The `sig_yield` helper of interpreter.c. -/
def rYield (v : Value) : Res := ⟨.sYield, some v, ""⟩

/-- The `err` helper of interpreter.c: format the message with the source
position. -/
def rErr (msg : String) (line col : Nat) : Res :=
  ⟨.sError, none,
    "Runtime error at line " ++ toString line ++ " col " ++ toString col ++
      ": " ++ msg⟩

/-- The `value_is_truthy` function of value.c.  For floats the C test is
`float_val != 0.0`, which is true for NaN and the infinities. -/
def valueIsTruthy : Value → Bool
  | VNull => false
  | VInt n => n != 0
  | VFloat f => !F64.feq f (.fin 0)
  | VBool b => b
  | VString s => s ≠ ""
  | VOptional _ present => present
  | _ => true

/-- The `value_equals` function of value.c (ast.c lines 383–394): the
if-chain compares payloads for null/int/float/bool/string pairs of equal
kind, compares a mixed int/float pair numerically after the C cast of the
integer to `double`, and reports every other combination unequal. -/
def valueEquals : Value → Value → Bool
  | VNull, VNull => true
  | VInt a, VInt b => a == b
  | VFloat a, VFloat b => F64.feq a b
  | VInt a, VFloat b => F64.feq (F64.ofInt a) b
  | VFloat a, VInt b => F64.feq a (F64.ofInt b)
  | VBool a, VBool b => a == b
  | VString a, VString b => a == b
  | _, _ => false

/-- The `value_copy` function of value.c: primitives are duplicated,
composites are shared via a reference-count bump — in the immutable value
model both are the identity on the payload. -/
def valueCopy : Value → Value
  | VNull => VNull
  | VInt n => VInt n
  | VFloat f => VFloat f
  | VBool b => VBool b
  | VString s => VString s
  | v => v

/-- The C union read `(v->type == VAL_FLOAT) ? v->float_val :
(double)v->int_val` used by the arithmetic macros of interpreter.c: reading
`float_val` (or `int_val`) of a value of any other kind yields unspecified
bits in C; that unspecified case is modelled as NaN. -/
def toF : Value → F64
  | VFloat f => f
  | VInt n => F64.ofInt n
  | _ => F64.nan

/-- Decimal digit to character. -/
def decDigitChar (d : Nat) : Char :=
  match d with
  | 0 => '0' | 1 => '1' | 2 => '2' | 3 => '3' | 4 => '4'
  | 5 => '5' | 6 => '6' | 7 => '7' | 8 => '8' | _ => '9'

/-- Most-significant-first decimal digits of a natural number (empty for
zero); the fuel argument only bounds the recursion and any fuel of at
least `n` is exact. -/
def natDecAux : Nat → Nat → List Char
  | 0, _ => []
  | fuel + 1, n =>
      if n = 0 then [] else natDecAux fuel (n / 10) ++ [decDigitChar (n % 10)]

/-- Decimal form of a natural number. -/
def natDecString (n : Nat) : String :=
  if n = 0 then "0" else String.mk (natDecAux (n + 1) n)

/-- Modelled from the spec of C `snprintf` with `%lld` (value.c prints
integers this way): the decimal form of a signed 64-bit integer, with a
leading minus sign for negative values. -/
def intToDecString (n : Int) : String :=
  if n < 0 then "-" ++ natDecString (-n).toNat else natDecString n.toNat

/-- The C `isspace` set (C locale). -/
def isSpaceC (c : Char) : Bool :=
  c = ' ' ∨ c = '\t' ∨ c = '\n' ∨ c = '\x0b' ∨ c = '\x0c' ∨ c = '\r'

/-- Decimal digit test, as C `isdigit`. -/
def isDigitC (c : Char) : Bool := '0' ≤ c ∧ c ≤ '9'

/-- Value of a decimal digit character. -/
def digitVal (c : Char) : Nat := c.toNat - 48

/-- Accumulate leading decimal digits (the conversion loop of `strtoll`). -/
def strtollDigits : Nat → List Char → Nat
  | acc, [] => acc
  | acc, ch :: rest =>
      if isDigitC ch then strtollDigits (acc * 10 + digitVal ch) rest else acc

/-- Saturation to the 64-bit signed range, as `strtoll` returns
`LLONG_MAX`/`LLONG_MIN` on overflow. -/
def clampI64 (v : Int) : Int :=
  max (-(2 ^ 63)) (min (2 ^ 63 - 1) v)

/-- Modelled from the spec of C `strtoll(s, NULL, 10)` (builtins.c converts
strings to integers with it): skip leading whitespace, an optional sign,
then leading decimal digits; the result saturates to the 64-bit signed
range. -/
def strtollModel (s : List Char) : Int :=
  match s.dropWhile isSpaceC with
  | [] => clampI64 (strtollDigits 0 [] : Int)
  | c :: rest =>
      if c = '-' then clampI64 (-(strtollDigits 0 rest : Int))
      else if c = '+' then clampI64 (strtollDigits 0 rest : Int)
      else clampI64 (strtollDigits 0 (c :: rest) : Int)

/-- Fractional decimal digits after the dot: their value scaled into ℚ. -/
def fracDigits : ℚ → ℚ → List Char → ℚ
  | acc, _, [] => acc
  | acc, scale, ch :: rest =>
      if isDigitC ch then
        fracDigits (acc + scale * (digitVal ch : ℚ) / 10) (scale / 10) rest
      else acc

/-- Modelled from the spec of C `strtod(s, NULL)` (builtins.c converts
strings to floats with it), without modelling rounding: leading whitespace,
optional sign, decimal digits, optional fraction and exponent, evaluated
exactly in ℚ. -/
def strtodModel (s : List Char) : F64 :=
  let core : List Char → ℚ := fun cs =>
    let ip := (strtollDigits 0 cs : ℚ)
    let rest := cs.dropWhile isDigitC
    let withFrac :=
      match rest with
      | '.' :: fs => ip + fracDigits 0 (1 : ℚ) fs
      | _ => ip
    let rest2 :=
      match rest with
      | '.' :: fs => fs.dropWhile isDigitC
      | _ => rest
    match rest2 with
    | 'e' :: es | 'E' :: es =>
        let eneg := es.head? = some '-'
        let es2 := if es.head? = some '-' ∨ es.head? = some '+'
          then es.tail else es
        let ex := strtollDigits 0 es2
        if eneg then withFrac / (10 : ℚ) ^ ex else withFrac * (10 : ℚ) ^ ex
    | _ => withFrac
  match s.dropWhile isSpaceC with
  | '-' :: rest => F64.fin (-(core rest))
  | '+' :: rest => F64.fin (core rest)
  | s1 => F64.fin (core s1)

/-- Printing of a C double with `%g` is not modelled bit-exactly: the model
prints the exact rational (or `inf`/`nan`).  No claim evaluates it. -/
def floatRepr : F64 → String
  | .fin q =>
      intToDecString q.num ++
        (if q.den = 1 then "" else "/" ++ natDecString q.den)
  | .inf s => if s then "-inf" else "inf"
  | .nan => "nan"

mutual

/-- The `value_to_string` function of value.c. -/
def valueToString : Value → String
  | VNull => "null"
  | VInt n => intToDecString n
  | VFloat f => floatRepr f
  | VBool b => if b then "true" else "false"
  | VString s => s
  | VFunction _ _ name => "<fn:" ++ name.getD "?" ++ ">"
  | VBuiltin _ name => "<builtin:" ++ name ++ ">"
  | VTuple elems names =>
      "(" ++ itemsString elems (names.getD []) ++ ")"
  | VPatInst fields pdef =>
      pdef.name ++ "\x7b" ++ itemsString fields pdef.fieldNames ++ "\x7d"
  | VType n _ => "<type:" ++ n ++ ">"
  | VModule n _ _ => "<module:" ++ n ++ ">"
  | VOptional none present => if present then "some(null)" else "none"
  | VOptional (some v) present =>
      if present then "some(" ++ valueToString v ++ ")" else "none"
  | VScope _ => "<scope>"
  | VVariant tag none => "variant(" ++ intToDecString tag ++ ", null)"
  | VVariant tag (some v) =>
      "variant(" ++ intToDecString tag ++ ", " ++ valueToString v ++ ")"

/-- Comma-joined element printing of tuples and pattern instances in
`value_to_string`, with a `name: ` prefix for named slots. -/
def itemsString : List Value → List (Option String) → String
  | [], _ => ""
  | v :: vs, ns =>
      let head :=
        (match ns.head? with
          | some (some n) => n ++ ": "
          | _ => "") ++ valueToString v
      match vs with
      | [] => head
      | _ => head ++ ", " ++ itemsString vs ns.tail

end

/-- The `builtin_int` function of builtins.c. -/
def builtinInt (args : List Value) : Value :=
  if args.length < 1 then VNull
  else
    match args.getD 0 VNull with
    | VInt n => VInt n
    | VFloat f => VInt (F64.toInt f)
    | VBool b => VInt (if b then 1 else 0)
    | VString s => VInt (strtollModel s.data)
    | _ => VNull

/-- The `builtin_float` function of builtins.c. -/
def builtinFloat (args : List Value) : Value :=
  if args.length < 1 then VNull
  else
    match args.getD 0 VNull with
    | VFloat f => VFloat f
    | VInt n => VFloat (F64.ofInt n)
    | VBool b => VFloat (F64.fin (if b then 1 else 0))
    | VString s => VFloat (strtodModel s.data)
    | _ => VNull

/-- The `builtin_string` function of builtins.c. -/
def builtinString (args : List Value) : Value :=
  if args.length < 1 then VNull
  else VString (valueToString (args.getD 0 VNull))

/-- The `builtin_bool` function of builtins.c. -/
def builtinBool (args : List Value) : Value :=
  if args.length < 1 then VNull
  else VBool (valueIsTruthy (args.getD 0 VNull))

/-- The type-check builtins of builtins.c. -/
def builtinIsKind (k : BuiltinId) (args : List Value) : Value :=
  if args.length < 1 then VNull
  else
    let a := args.getD 0 VNull
    match k with
    | .bIsNull => VBool (match a with | VNull => true | _ => false)
    | .bIsInt => VBool (match a with | VInt _ => true | _ => false)
    | .bIsFloat => VBool (match a with | VFloat _ => true | _ => false)
    | _ => VBool (match a with | VString _ => true | _ => false)

/-- Dispatch of the embedded built-in registry. -/
def builtinCall : BuiltinId → List Value → Value
  | .bInt, args => builtinInt args
  | .bFloat, args => builtinFloat args
  | .bString, args => builtinString args
  | .bBool, args => builtinBool args
  | k, args => builtinIsKind k args

/-- The binary-operator dispatch of `eval` for `AST_BINOP` in
interpreter.c (both operands already evaluated): the `ARITH` macros for
`+`/`-`/`*`, the guarded division and modulo, the `CMP` macros, value
equality, the truthiness combinations for `&&`/`||`, the integer-only
bitwise operators, and string concatenation for `+` — which is dead code,
since the `ARITH("+")` macro already returned.  An operator falling through
every branch yields the `unsupported binary operation` error. -/
def evalBinop (op : String) (l r : Value) (line col : Nat) : Res :=
  if op = "+" then
    match l, r with
    | VInt a, VInt b => rOk (VInt (a + b))
    | _, _ => rOk (VFloat (F64.add (toF l) (toF r)))
  else if op = "-" then
    match l, r with
    | VInt a, VInt b => rOk (VInt (a - b))
    | _, _ => rOk (VFloat (F64.sub (toF l) (toF r)))
  else if op = "*" then
    match l, r with
    | VInt a, VInt b => rOk (VInt (a * b))
    | _, _ => rOk (VFloat (F64.mul (toF l) (toF r)))
  else if op = "/" then
    match l, r with
    | VInt a, VInt b =>
        if b = 0 then rErr "division by zero" line col
        else rOk (VInt (a.tdiv b))
    | _, _ => rOk (VFloat (F64.div (toF l) (toF r)))
  else if op = "%" then
    match l, r with
    | VInt a, VInt b =>
        if b = 0 then rErr "modulo by zero" line col
        else rOk (VInt (a.tmod b))
    | _, _ => rErr "unsupported binary operation" line col
  else if op = "<" then
    match l, r with
    | VInt a, VInt b => rOk (VBool (a < b))
    | _, _ => rOk (VBool (F64.flt (toF l) (toF r)))
  else if op = ">" then
    match l, r with
    | VInt a, VInt b => rOk (VBool (b < a))
    | _, _ => rOk (VBool (F64.flt (toF r) (toF l)))
  else if op = "<=" then
    match l, r with
    | VInt a, VInt b => rOk (VBool (a ≤ b))
    | _, _ => rOk (VBool (F64.fle (toF l) (toF r)))
  else if op = ">=" then
    match l, r with
    | VInt a, VInt b => rOk (VBool (b ≤ a))
    | _, _ => rOk (VBool (F64.fle (toF r) (toF l)))
  else if op = "==" then rOk (VBool (valueEquals l r))
  else if op = "!=" then rOk (VBool (!valueEquals l r))
  else if op = "&&" then rOk (VBool (valueIsTruthy l && valueIsTruthy r))
  else if op = "||" then rOk (VBool (valueIsTruthy l || valueIsTruthy r))
  else if op = "&" then
    match l, r with
    | VInt a, VInt b => rOk (VInt (Int.land a b))
    | _, _ => rErr "unsupported binary operation" line col
  else if op = "|" then
    match l, r with
    | VInt a, VInt b => rOk (VInt (Int.lor a b))
    | _, _ => rErr "unsupported binary operation" line col
  else if op = "^" then
    match l, r with
    | VInt a, VInt b => rOk (VInt (Int.xor a b))
    | _, _ => rErr "unsupported binary operation" line col
  else if op = "<<" then
    match l, r with
    | VInt a, VInt b => rOk (VInt (a * 2 ^ b.toNat))
    | _, _ => rErr "unsupported binary operation" line col
  else if op = ">>" then
    match l, r with
    | VInt a, VInt b => rOk (VInt (Int.shiftRight a b.toNat))
    | _, _ => rErr "unsupported binary operation" line col
  else if op = "+" then
    match l, r with
    | VString a, VString b => rOk (VString (a ++ b))
    | _, _ => rErr "unsupported binary operation" line col
  else rErr "unsupported binary operation" line col

/-- Type of the sub-evaluator threaded through the loop helpers: the
evaluator one fuel step down. -/
abbrev EvalFn := Ast → Nat → Store → Option (Res × Store)

/-- C `eval(node, env)` accepts a NULL node and returns a fresh null value
for it; optional AST slots evaluate through this wrapper. -/
def evalOptGo (ev : EvalFn) (onode : Option Ast) (env : Nat) (st : Store) :
    Option (Res × Store) :=
  match onode with
  | none => some (rOk VNull, st)
  | some a => ev a env st

/-- The `eval_block` function of interpreter.c: children in order, abort on
the first non-`None` signal, result of the last child (null for an empty
list). -/
def evalSeqGo (ev : EvalFn) : List Ast → Nat → Store → Option (Res × Store)
  | [], _, st => some (rOk VNull, st)
  | c :: cs, env, st =>
      match ev c env st with
      | none => none
      | some (r, st1) =>
          if r.sig ≠ .sNone then some (r, st1)
          else
            match cs with
            | [] => some (r, st1)
            | _ => evalSeqGo ev cs env st1

/-- `eval_block` applied to an optional block slot (C passes NULL body
pointers straight to `eval_block`). -/
def evalBlockGo (ev : EvalFn) (ob : Option Ast) (env : Nat) (st : Store) :
    Option (Res × Store) :=
  match ob with
  | none => some (rOk VNull, st)
  | some b => evalSeqGo ev b.children env st

/-- The `AST_PROGRAM` loop of `eval`: errors abort, `Break`/`Yield`
propagate, a top-level `Return` is converted to a plain value and the walk
continues. -/
def evalProgramGo (ev : EvalFn) : List Ast → Nat → Store →
    Option (Res × Store)
  | [], _, st => some (rOk VNull, st)
  | c :: cs, env, st =>
      match ev c env st with
      | none => none
      | some (r, st1) =>
          if r.sig = .sError then some (r, st1)
          else if r.sig = .sBreak ∨ r.sig = .sYield then some (r, st1)
          else
            let r' := if r.sig = .sReturn then { r with sig := .sNone } else r
            match cs with
            | [] => some (r', st1)
            | _ => evalProgramGo ev cs env st1

/-- The argument-evaluation loop of `eval_call` of interpreter.c: left to
right, aborting on the first non-`None` signal. -/
def evalArgsGo (ev : EvalFn) : List Ast → Nat → Store →
    Option (Sum (Res × Store) (List Value × Store))
  | [], _, st => some (.inr ([], st))
  | a :: rest, env, st =>
      match ev a env st with
      | none => none
      | some (r, st1) =>
          if r.sig ≠ .sNone then some (.inl (r, st1))
          else
            match evalArgsGo ev rest env st1 with
            | none => none
            | some (.inl e) => some (.inl e)
            | some (.inr (vs, st2)) =>
                some (.inr ((r.val.getD VNull) :: vs, st2))

/-- The element loop of the `AST_TUPLE` case of `eval`: an
`Assign(ident = expr)` child is a named element, a named `TypeAnn` child is
a named element (return-tuple literals), anything else is positional. -/
def evalTupleGo (ev : EvalFn) : List Ast → Nat → Store →
    Option (Sum (Res × Store) (List (Value × Option String) × Store))
  | [], _, st => some (.inr ([], st))
  | child :: rest, env, st =>
      let step : Option (Sum (Res × Store) ((Value × Option String) × Store)) :=
        if child.ty = .AST_ASSIGN ∧ child.ini.map Ast.ty = some .AST_IDENT then
          match evalOptGo ev child.body env st with
          | none => none
          | some (r, st1) =>
              if r.sig ≠ .sNone then some (.inl (r, st1))
              else some (.inr ((r.val.getD VNull, child.ini.bind Ast.name), st1))
        else if child.ty = .AST_TYPE_ANN ∧ child.name.isSome then
          match
            (match child.ini with
              | some i => ev i env st
              | none => ev child env st) with
          | none => none
          | some (r, st1) =>
              if r.sig ≠ .sNone then some (.inl (r, st1))
              else some (.inr ((r.val.getD VNull, child.name), st1))
        else
          match ev child env st with
          | none => none
          | some (r, st1) =>
              if r.sig ≠ .sNone then some (.inl (r, st1))
              else some (.inr ((r.val.getD VNull, none), st1))
      match step with
      | none => none
      | some (.inl e) => some (.inl e)
      | some (.inr (item, st1)) =>
          match evalTupleGo ev rest env st1 with
          | none => none
          | some (.inl e) => some (.inl e)
          | some (.inr (items, st2)) => some (.inr (item :: items, st2))

/-- The positional parameter binding of `eval_fn_call` of interpreter.c:
each `AST_PARAM` child binds the next argument (null when missing). -/
def bindParamsGo : List Ast → List Value → Nat → Nat → Store → Store
  | [], _, _, _, st => st
  | p :: rest, args, env, idx, st =>
      if p.ty = .AST_PARAM then
        bindParamsGo rest args env (idx + 1)
          (envDef st env (p.name.getD "_") (args.getD idx VNull))
      else bindParamsGo rest args env idx st

/-- Linear scan of a field-name (or tuple-name) array for a named slot, as
in the member-access loops of interpreter.c (NULL name slots never
match). -/
def findFieldIdxAux (field : String) : List (Option String) → Nat →
    Option Nat
  | [], _ => none
  | some n :: rest, i =>
      if n = field then some i else findFieldIdxAux field rest (i + 1)
  | none :: rest, i => findFieldIdxAux field rest (i + 1)

def findFieldIdx (names : List (Option String)) (field : String) :
    Option Nat :=
  findFieldIdxAux field names 0

/-- The `VAL_TYPE` branch body of `eval_fn_call` of interpreter.c for a
single argument: the `i`/`u`-prefix integer conversions, the `f`-prefix
float conversions, the exact `"string"` conversion, and the trailing
`ok(null)` for everything else.  Every path returns `ok`. -/
def typeConvRes (tname : String) (arg : Value) : Res :=
  let sChk : Res :=
    if tname = "string" then rOk (VString (valueToString arg))
    else rOk VNull
  let fChk : Res :=
    if tname.data.head? = some 'f' then
      match arg with
      | VFloat f => rOk (VFloat f)
      | VInt n => rOk (VFloat (F64.ofInt n))
      | VString s => rOk (VFloat (strtodModel s.data))
      | _ => sChk
    else sChk
  if tname.data.head? = some 'i' ∨ tname.data.head? = some 'u' then
    match arg with
    | VInt n => rOk (VInt n)
    | VFloat f => rOk (VInt (F64.toInt f))
    | VString s => rOk (VInt (strtollModel s.data))
    | _ => fChk
  else fChk

/-- The `eval_fn_call` function of interpreter.c: dispatch on the callee
kind — builtin, user function (child environment of the closure, `Return`
unwraps), pattern-module instantiation, type conversion (never an error:
every path of the `VAL_TYPE` branch returns `ok`), else the
`not a callable value` error. -/
def evalFnCallGo (ev : EvalFn) (fn : Value) (args : List Value)
    (line col : Nat) (st : Store) : Option (Res × Store) :=
  match fn with
  | VBuiltin bid _ => some (rOk (builtinCall bid args), st)
  | VFunction decl closure _ =>
      let p := envNew st (some closure)
      let st2 := bindParamsGo decl.children args p.1 0 p.2
      let body :=
        match decl.body with
        | some b => evalSeqGo ev b.children p.1 st2
        | none => some (rOk VNull, st2)
      match body with
      | none => none
      | some (r, st3) =>
          if r.sig = .sReturn then some ({ r with sig := .sNone }, st3)
          else some (r, st3)
  | VModule _ _ (some pdef) =>
      some (rOk (VPatInst
        ((List.range pdef.fieldNames.length).map (fun i => args.getD i VNull))
        pdef), st)
  | VType tname _ =>
      if args.length = 1 then
        some (typeConvRes tname (args.getD 0 VNull), st)
      else some (rOk VNull, st)
  | _ => some (rErr "not a callable value" line col, st)

/-- The tuple branch of the `AST_FOR` loop of `eval`: fresh child
environment per element, `Break` exits with the accumulated result,
`Yield` replaces it, `Return`/`Error` propagate. -/
def evalForTupleGo (ev : EvalFn) (varName : String) (body : Option Ast)
    (env : Nat) : List Value → Store → Value → Option (Res × Store)
  | [], st, result => some (rOk result, st)
  | v :: vs, st, result =>
      let p := envNew st (some env)
      let st2 := envDef p.2 p.1 varName v
      match evalBlockGo ev body p.1 st2 with
      | none => none
      | some (r, st3) =>
          if r.sig = .sBreak then some (rOk result, st3)
          else if r.sig = .sYield then
            evalForTupleGo ev varName body env vs st3 (r.val.getD VNull)
          else if r.sig = .sReturn ∨ r.sig = .sError then some (r, st3)
          else evalForTupleGo ev varName body env vs st3 result

/-- The integer branch of the `AST_FOR` loop of `eval`: iterate `0..N-1`
with the same signal handling as the tuple branch. -/
def evalForIntGo (ev : EvalFn) (varName : String) (body : Option Ast)
    (env : Nat) : Int → Nat → Store → Value → Option (Res × Store)
  | _, 0, st, result => some (rOk result, st)
  | idx, rem + 1, st, result =>
      let p := envNew st (some env)
      let st2 := envDef p.2 p.1 varName (VInt idx)
      match evalBlockGo ev body p.1 st2 with
      | none => none
      | some (r, st3) =>
          if r.sig = .sBreak then some (rOk result, st3)
          else if r.sig = .sYield then
            evalForIntGo ev varName body env (idx + 1) rem st3 (r.val.getD VNull)
          else if r.sig = .sReturn ∨ r.sig = .sError then some (r, st3)
          else evalForIntGo ev varName body env (idx + 1) rem st3 result

/-- The case walk of the `AST_SWITCH` branch of `eval`: cases in order, a
null condition (the default) always matches, the matching case's body runs
in a child environment with `Break` swallowed; after a matching case the
walk stops. -/
def evalCasesGo (ev : EvalFn) (tag : Value) (env : Nat) : List Ast →
    Store → Option (Res × Store)
  | [], st => some (rOk VNull, st)
  | cas :: rest, st =>
      let runCase : Store → Option (Res × Store) := fun st' =>
        let p := envNew st' (some env)
        match evalSeqGo ev cas.children p.1 p.2 with
        | none => none
        | some (r, st2) =>
            if r.sig = .sBreak then some (rOk (r.val.getD VNull), st2)
            else if r.sig ≠ .sNone then some (r, st2)
            else some (rOk (r.val.getD VNull), st2)
      match cas.cond with
      | none => runCase st
      | some cnd =>
          match ev cnd env st with
          | none => none
          | some (cv, st1) =>
              if cv.sig ≠ .sNone then some (cv, st1)
              else if valueEquals tag (cv.val.getD VNull) then runCase st1
              else evalCasesGo ev tag env rest st1

/-- The `AST_WHILE` loop of `eval`: leading condition, body in a fresh
child environment, trailing condition; `Break` exits with the result,
`Yield` replaces it and re-enters the loop head directly (C `continue`
skips the trailing condition), `Return`/`Error` propagate.  Each iteration
consumes one unit of fuel (the loop may diverge in C). -/
def evalWhileGo (ev : EvalFn) (node : Ast) (env : Nat) : Nat → Store →
    Value → Option (Res × Store)
  | 0, _, _ => none
  | g + 1, st, result =>
      let afterCond : Option (Sum (Res × Store) Store) :=
        match node.cond with
        | none => some (.inr st)
        | some cnd =>
            match ev cnd env st with
            | none => none
            | some (cr, st1) =>
                if cr.sig ≠ .sNone then some (.inl (cr, st1))
                else if valueIsTruthy (cr.val.getD VNull) then
                  some (.inr st1)
                else some (.inl (rOk result, st1))
      match afterCond with
      | none => none
      | some (.inl e) => some e
      | some (.inr st1) =>
          let p := envNew st1 (some env)
          match evalBlockGo ev node.body p.1 p.2 with
          | none => none
          | some (r, st2) =>
              if r.sig = .sBreak then some (rOk result, st2)
              else if r.sig = .sYield then
                evalWhileGo ev node env g st2 (r.val.getD VNull)
              else if r.sig = .sReturn ∨ r.sig = .sError then some (r, st2)
              else
                match node.alt with
                | none => evalWhileGo ev node env g st2 result
                | some tc =>
                    match ev tc env st2 with
                    | none => none
                    | some (cr, st3) =>
                        if cr.sig ≠ .sNone then some (cr, st3)
                        else if valueIsTruthy (cr.val.getD VNull) then
                          evalWhileGo ev node env g st3 result
                        else some (rOk result, st3)

/-- One step of the `eval` function of interpreter.c: the full dispatch on
the AST kind, with all sub-evaluations performed by the sub-evaluator `ev`
(the evaluator one fuel step down).  Member *assignment* on a pattern
instance mutates the instance in place in C; instance identity is not
modelled, so that write is not propagated (no claim concerns it) — the
result value and error behaviour are modelled faithfully. -/
def evalCore (ev : EvalFn) (node : Ast) (env : Nat) (st : Store) :
    Option (Res × Store) :=
  match node.ty with
  | .AST_NULL_LIT => some (rOk VNull, st)
  | .AST_INT_LIT => some (rOk (VInt node.ival), st)
  | .AST_FLOAT_LIT => some (rOk (VFloat node.fval), st)
  | .AST_STR_LIT => some (rOk (VString (node.sval.getD "")), st)
  | .AST_IDENT =>
      match envGet st env (node.name.getD "") with
      | none =>
          some (rErr ("undefined variable '" ++ node.name.getD "" ++ "'")
            node.line node.col, st)
      | some v => some (rOk v, st)
  | .AST_ASSIGN =>
      match evalOptGo ev node.body env st with
      | none => none
      | some (rhs, st1) =>
          if rhs.sig ≠ .sNone then some (rhs, st1)
          else
            let rv := rhs.val.getD VNull
            match node.ini with
            | none => some (rErr "invalid assignment target" node.line node.col, st1)
            | some lhs =>
                if lhs.ty = .AST_IDENT then
                  some (rOk rv, envSet st1 env (lhs.name.getD "") rv)
                else if lhs.ty = .AST_MEMBER then
                  match evalOptGo ev lhs.ini env st1 with
                  | none => none
                  | some (objR, st2) =>
                      if objR.sig ≠ .sNone then some (objR, st2)
                      else
                        match objR.val.getD VNull with
                        | VPatInst _ pdef =>
                            match findFieldIdx pdef.fieldNames (lhs.name.getD "") with
                            | some _ => some (rOk rv, st2)
                            | none =>
                                some (rErr "cannot assign to member" lhs.line lhs.col, st2)
                        | VScope e =>
                            some (rOk rv, envSet st2 e (lhs.name.getD "") rv)
                        | _ =>
                            some (rErr "cannot assign to member" lhs.line lhs.col, st2)
                else if lhs.ty = .AST_INDEX then
                  some (rErr "index assignment not yet implemented" lhs.line lhs.col, st1)
                else
                  some (rErr "invalid assignment target" node.line node.col, st1)
  | .AST_UNOP =>
      match evalOptGo ev node.ini env st with
      | none => none
      | some (r, st1) =>
          if r.sig ≠ .sNone then some (r, st1)
          else
            let v := r.val.getD VNull
            let op := node.op.getD ""
            if op = "-" then
              match v with
              | VInt n => some (rOk (VInt (-n)), st1)
              | VFloat f => some (rOk (VFloat (F64.fneg f)), st1)
              | _ => some (rErr "unsupported unary op" node.line node.col, st1)
            else if op = "!" then
              some (rOk (VBool (!valueIsTruthy v)), st1)
            else if op = "~" then
              match v with
              | VInt n => some (rOk (VInt (Int.not n)), st1)
              | _ => some (rErr "unsupported unary op" node.line node.col, st1)
            else some (rErr "unsupported unary op" node.line node.col, st1)
  | .AST_BINOP =>
      if node.children.length < 2 then
        some (rErr "binop needs 2 children" node.line node.col, st)
      else
        match ev (node.children.getD 0 node) env st with
        | none => none
        | some (lr, st1) =>
            if lr.sig ≠ .sNone then some (lr, st1)
            else
              match ev (node.children.getD 1 node) env st1 with
              | none => none
              | some (rr, st2) =>
                  if rr.sig ≠ .sNone then some (rr, st2)
                  else
                    some (evalBinop (node.op.getD "") (lr.val.getD VNull)
                      (rr.val.getD VNull) node.line node.col, st2)
  | .AST_OPTIONAL =>
      match evalOptGo ev node.cond env st with
      | none => none
      | some (cr, st1) =>
          if cr.sig ≠ .sNone then some (cr, st1)
          else if valueIsTruthy (cr.val.getD VNull) then
            evalOptGo ev node.ini env st1
          else
            match node.alt with
            | some alt => ev alt env st1
            | none => some (rOk VNull, st1)
  | .AST_COPY =>
      match evalOptGo ev node.ini env st with
      | none => none
      | some (r, st1) =>
          if r.sig ≠ .sNone then some (r, st1)
          else some (rOk (valueCopy (r.val.getD VNull)), st1)
  | .AST_MOVE => evalOptGo ev node.ini env st
  | .AST_MEMBER =>
      match evalOptGo ev node.ini env st with
      | none => none
      | some (objR, st1) =>
          if objR.sig ≠ .sNone then some (objR, st1)
          else
            let obj := objR.val.getD VNull
            let field := node.name.getD ""
            let noMember : Res :=
              rErr ("no member '" ++ field ++ "'") node.line node.col
            match obj with
            | VPatInst fields pdef =>
                match findFieldIdx pdef.fieldNames field with
                | some i => some (rOk (fields.getD i VNull), st1)
                | none => some (noMember, st1)
            | VScope e =>
                match envGet st1 e field with
                | some v => some (rOk v, st1)
                | none => some (noMember, st1)
            | VModule _ (some e) _ =>
                match envGet st1 e field with
                | some v => some (rOk v, st1)
                | none => some (noMember, st1)
            | VTuple elems (some names) =>
                match findFieldIdx names field with
                | some i => some (rOk (elems.getD i VNull), st1)
                | none => some (noMember, st1)
            | _ => some (noMember, st1)
  | .AST_INDEX =>
      match evalOptGo ev node.ini env st with
      | none => none
      | some (objR, st1) =>
          if objR.sig ≠ .sNone then some (objR, st1)
          else if node.children.length < 1 then
            some (rErr "index missing" node.line node.col, st1)
          else
            match ev (node.children.getD 0 node) env st1 with
            | none => none
            | some (idxR, st2) =>
                if idxR.sig ≠ .sNone then some (idxR, st2)
                else
                  match objR.val.getD VNull, idxR.val.getD VNull with
                  | VTuple elems _, VInt i =>
                      let i' := if i < 0 then i + elems.length else i
                      if 0 ≤ i' ∧ i' < elems.length then
                        some (rOk (elems.getD i'.toNat VNull), st2)
                      else
                        some (rErr "tuple index out of range" node.line node.col, st2)
                  | _, _ =>
                      some (rErr "index not supported for this type"
                        node.line node.col, st2)
  | .AST_CALL =>
      match evalOptGo ev node.ini env st with
      | none => none
      | some (fnR, st1) =>
          if fnR.sig ≠ .sNone then some (fnR, st1)
          else
            match evalArgsGo ev node.children env st1 with
            | none => none
            | some (.inl e) => some e
            | some (.inr (argVals, st2)) =>
                evalFnCallGo ev (fnR.val.getD VNull) argVals
                  node.line node.col st2
  | .AST_TUPLE =>
      match evalTupleGo ev node.children env st with
      | none => none
      | some (.inl e) => some e
      | some (.inr (items, st1)) =>
          some (rOk (VTuple (items.map (·.1))
            (if items.any (·.2.isSome) then some (items.map (·.2)) else none)),
            st1)
  | .AST_SCOPE =>
      let p := envNew st (some env)
      evalSeqGo ev node.children p.1 p.2
  | .AST_BLOCK => evalSeqGo ev node.children env st
  | .AST_PROGRAM => evalProgramGo ev node.children env st
  | .AST_FN_DECL =>
      let fn := VFunction node env node.name
      some (rOk VNull, envDef st env (node.name.getD "") fn)
  | .AST_VAR_DECL =>
      match node.ini with
      | none => some (rOk VNull, envDef st env (node.name.getD "") VNull)
      | some i =>
          match ev i env st with
          | none => none
          | some (r, st1) =>
              if r.sig ≠ .sNone then some (r, st1)
              else
                some (rOk VNull,
                  envDef st1 env (node.name.getD "") (r.val.getD VNull))
  | .AST_PAT_DECL =>
      let bodyKids : List Ast :=
        match node.body with
        | some b => if b.ty = .AST_SCOPE then b.children else []
        | none => []
      let fieldNames :=
        (bodyKids.filter (fun ch : Ast => ch.ty = AstTy.AST_VAR_DECL)).map Ast.name
      let pdef : PatDef := ⟨node.name.getD "", fieldNames⟩
      let p := envNew st none
      let st1 := envDef p.2 p.1 "__name__" (VString (node.name.getD ""))
      let st2 := bodyKids.foldl
        (fun acc (ch : Ast) =>
          if ch.ty = AstTy.AST_FN_DECL then
            envDef acc p.1 (ch.name.getD "")
              (VFunction ch p.1 ch.name)
          else acc) st1
      let mod := VModule (node.name.getD "") (some p.1) (some pdef)
      some (rOk VNull, envDef st2 env (node.name.getD "") mod)
  | .AST_IMPORT_DECL =>
      -- the TODO stub of interpreter.c: module loading is never performed
      some (rOk VNull, st)
  | .AST_FOR =>
      match evalOptGo ev node.cond env st with
      | none => none
      | some (rangeR, st1) =>
          if rangeR.sig ≠ .sNone then some (rangeR, st1)
          else
            let varName := (node.ini.bind Ast.name).getD "_"
            match rangeR.val.getD VNull with
            | VTuple elems _ =>
                evalForTupleGo ev varName node.body env elems st1 VNull
            | VInt n =>
                evalForIntGo ev varName node.body env 0 n.toNat st1 VNull
            | _ => some (rOk VNull, st1)
  | .AST_WHILE => evalWhileGo ev node env st.frames.length.succ st VNull
  | .AST_SWITCH =>
      match evalOptGo ev node.cond env st with
      | none => none
      | some (tagR, st1) =>
          if tagR.sig ≠ .sNone then some (tagR, st1)
          else evalCasesGo ev (tagR.val.getD VNull) env node.children st1
  | .AST_BREAK => some (rBreak, st)
  | .AST_YIELD =>
      match node.ini with
      | none => some (rYield VNull, st)
      | some i =>
          match ev i env st with
          | none => none
          | some (r, st1) =>
              if r.sig ≠ .sNone then some (r, st1)
              else some (rYield (r.val.getD VNull), st1)
  | .AST_RETURN =>
      match node.ini with
      | none => some (rReturn VNull, st)
      | some i =>
          match ev i env st with
          | none => none
          | some (r, st1) =>
              if r.sig ≠ .sNone then some (r, st1)
              else some (rReturn (r.val.getD VNull), st1)
  | .AST_TEMPLATE_INST =>
      if node.children.length > 0 ∧
          (node.children.getD 0 node).ty = .AST_TYPE_ANN then
        match (node.children.getD 0 node).sval with
        | some tname => some (rOk (VType tname none), st)
        | none => some (rOk VNull, st)
      else some (rOk VNull, st)
  | .AST_TYPE_ANN =>
      match node.sval with
      | some s =>
          match envGet st env s with
          | some v => some (rOk v, st)
          | none => some (rOk (VType s none), st)
      | none => some (rOk VNull, st)
  | _ => some (rErr "unhandled AST node type" node.line node.col, st)

/-- The `eval` function of interpreter.c, with an explicit fuel: `eval
(f + 1)` performs one dispatch step with all sub-evaluations at fuel `f`
(the recursion in C is unbounded — language-level recursion and `while`
loops may diverge). -/
def eval : Nat → Ast → Nat → Store → Option (Res × Store)
  | 0 => fun _ _ _ => none
  | f + 1 => evalCore (eval f)

/-- A store holding only the (empty) global environment, as after
`interp_init` (the builtin registry of the external collaborator is not
populated here). -/
def store0 : Store := ⟨[⟨[], none⟩]⟩

/-- Construction helper for AST nodes at source position 0:0 with the
unused slots empty. -/
def astNode (t : AstTy) (children : List Ast) (name op : Option String)
    (ini body cond alt : Option Ast) (ival : Int) (sval : Option String) :
    Ast :=
  .mk t 0 0 children name op none ini body cond alt none ival (.fin 0) sval
    false false false false false

def astIntLit (n : Int) : Ast :=
  astNode .AST_INT_LIT [] none none none none none none n none

def astFloatLit (f : F64) : Ast :=
  .mk .AST_FLOAT_LIT 0 0 [] none none none none none none none none 0 f none
    false false false false false

def astStrLit (s : String) : Ast :=
  astNode .AST_STR_LIT [] none none none none none none 0 (some s)

def astNullLit : Ast :=
  astNode .AST_NULL_LIT [] none none none none none none 0 none

def astIdent (n : String) : Ast :=
  astNode .AST_IDENT [] (some n) none none none none none 0 none

def astBinop (op : String) (l r : Ast) : Ast :=
  astNode .AST_BINOP [l, r] none (some op) none none none none 0 none

def astTuple (cs : List Ast) : Ast :=
  astNode .AST_TUPLE cs none none none none none none 0 none

/-- A `switch` node: tag expression and case children. -/
def astSwitch (tag : Ast) (cases : List Ast) : Ast :=
  astNode .AST_SWITCH cases none none none none (some tag) none 0 none

/-- A `case` node: optional condition and body statements (the children). -/
def astCase (cnd : Option Ast) (body : List Ast) : Ast :=
  astNode .AST_CASE body none none none none cnd none 0 none

/-- A `for` node: loop variable, range expression, body scope. -/
def astFor (varName : String) (range : Ast) (body : List Ast) : Ast :=
  astNode .AST_FOR [] none none (some (astIdent varName))
    (some (astNode .AST_SCOPE body none none none none none none 0 none))
    (some range) none 0 none

/-- An `import` declaration node: dotted module name, optional alias, item
children. -/
def astImport (modName : String) (aliasN : Option String)
    (items : List Ast) : Ast :=
  astNode .AST_IMPORT_DECL items (some modName) aliasN none none none none
    0 none

def astBreak : Ast :=
  astNode .AST_BREAK [] none none none none none none 0 none

def astYield (e : Ast) : Ast :=
  astNode .AST_YIELD [] none none (some e) none none none 0 none

def astReturn (e : Ast) : Ast :=
  astNode .AST_RETURN [] none none (some e) none none none 0 none

def astProgram (cs : List Ast) : Ast :=
  astNode .AST_PROGRAM cs none none none none none none 0 none

/-- Stepping lemma for `AST_BINOP`: when both operands evaluate without a
signal the node's result is `evalBinop` over the two values, in the store
left by the second operand. -/
theorem binop_step (f : Nat) (node l r : Ast) (env : Nat)
    (st st1 st2 : Store) (r1 r2 : Res)
    (hty : node.ty = .AST_BINOP) (hch : node.children = [l, r])
    (hl : eval f l env st = some (r1, st1)) (h1 : r1.sig = .sNone)
    (hr : eval f r env st1 = some (r2, st2)) (h2 : r2.sig = .sNone) :
    eval (f + 1) node env st =
      some (evalBinop (node.op.getD "") (r1.val.getD VNull)
        (r2.val.getD VNull) node.line node.col, st2) := by
  show evalCore (eval f) node env st = _
  unfold evalCore
  rw [hty, hch]
  simp [hl, hr, h1, h2]

/-- Stepping lemma for `AST_BINOP` when the right operand produces a
signal: the signal is returned as the node's result. -/
theorem binop_step_rsig (f : Nat) (node l r : Ast) (env : Nat)
    (st st1 st2 : Store) (vl : Value) (r2 : Res)
    (hty : node.ty = .AST_BINOP) (hch : node.children = [l, r])
    (hl : eval f l env st = some (rOk vl, st1))
    (hr : eval f r env st1 = some (r2, st2)) (hs : r2.sig ≠ .sNone) :
    eval (f + 1) node env st = some (r2, st2) := by
  show evalCore (eval f) node env st = _
  unfold evalCore
  rw [hty, hch]
  simp [hl, hr, rOk, hs]

/-- C3 counterexample: in `1 || (1/0)` the left operand is truthy, so the
short-circuit policy skips the right operand and no error may occur; the
evaluator nevertheless evaluates the right operand and the division-by-zero
error is the expression's result. -/
theorem andor_shortcircuit_counterexample :
    valueIsTruthy (VInt 1) = true ∧
      (eval 3 (astBinop "||" (astIntLit 1)
          (astBinop "/" (astIntLit 1) (astIntLit 0))) 0 store0).map
        (fun p => p.1.sig) = some .sError :=
  ⟨rfl, rfl⟩

/-- C3 (amended): in every `&&`/`||` expression both operands always
evaluate, left then right; the result is the boolean combination of the two
truthiness values, and a signal (in particular an error) raised by the
right operand becomes the expression's result even when the left operand's
truthiness already determines it. -/
theorem andor_evaluates_both_operands (f : Nat) (node l r : Ast)
    (opS : String) (env : Nat) (st st1 st2 : Store) (vl : Value) (r2 : Res)
    (hty : node.ty = .AST_BINOP) (hop : node.op = some opS)
    (hops : opS = "&&" ∨ opS = "||") (hch : node.children = [l, r])
    (hl : eval f l env st = some (rOk vl, st1))
    (hr : eval f r env st1 = some (r2, st2)) :
    (r2.sig = .sNone →
      eval (f + 1) node env st =
        some (rOk (VBool (if opS = "&&" then
            valueIsTruthy vl && valueIsTruthy (r2.val.getD VNull)
          else valueIsTruthy vl || valueIsTruthy (r2.val.getD VNull))),
          st2)) ∧
    (r2.sig ≠ .sNone → eval (f + 1) node env st = some (r2, st2)) := by
  constructor
  · intro hsig
    rw [binop_step f node l r env st st1 st2 (rOk vl) r2 hty hch hl rfl hr
      hsig]
    rw [hop]
    rcases hops with hops | hops <;> subst hops <;> simp [evalBinop, rOk]
  · intro hsig
    exact binop_step_rsig f node l r env st st1 st2 vl r2 hty hch hl hr hsig

/-- Witness for the amended C3: `1 || 0` evaluates both operands and yields
`true || false`. -/
theorem andor_evaluates_both_operands_witness :
    eval 2 (astBinop "||" (astIntLit 1) (astIntLit 0)) 0 store0 =
      some (rOk (VBool true), store0) := by
  have h := andor_evaluates_both_operands 1
    (astBinop "||" (astIntLit 1) (astIntLit 0)) (astIntLit 1) (astIntLit 0)
    "||" 0 store0 store0 store0 (VInt 1) (rOk (VInt 0)) rfl rfl
    (Or.inr rfl) rfl rfl rfl
  exact (h.1 rfl).trans rfl

/-- C4: for `/` and `%` with both operands integer and a zero right
operand the node's result is an evaluation error (signal `Error`, no result
value); a nonzero integer division truncates toward zero (`Int.tdiv`), and
likewise `%` is the C remainder (`Int.tmod`); when either operand of `/` is
a float the quotient is the float operation's value and no error arises —
and the float division of a finite value by (float) zero is an infinity or
NaN, never an error. -/
theorem div_mod_semantics (f : Nat) (node l r : Ast) (env : Nat)
    (st st1 st2 : Store) (vl vr : Value) (a b : Int)
    (hty : node.ty = .AST_BINOP) (hch : node.children = [l, r])
    (hl : eval f l env st = some (rOk vl, st1))
    (hr : eval f r env st1 = some (rOk vr, st2)) :
    ((node.op = some "/" ∨ node.op = some "%") → vl = VInt a →
      vr = VInt 0 →
      ∃ m, eval (f + 1) node env st = some (⟨.sError, none, m⟩, st2)) ∧
    (node.op = some "/" → vl = VInt a → vr = VInt b → b ≠ 0 →
      eval (f + 1) node env st = some (rOk (VInt (a.tdiv b)), st2)) ∧
    (node.op = some "%" → vl = VInt a → vr = VInt b → b ≠ 0 →
      eval (f + 1) node env st = some (rOk (VInt (a.tmod b)), st2)) ∧
    (node.op = some "/" →
      ((∃ x, vl = VFloat x) ∨ (∃ x, vr = VFloat x)) →
      eval (f + 1) node env st =
        some (rOk (VFloat (F64.div (toF vl) (toF vr))), st2)) ∧
    (∀ q : ℚ, F64.div (.fin q) (.fin 0) = .nan ∨
      ∃ s, F64.div (.fin q) (.fin 0) = .inf s) := by
  have hstep := binop_step f node l r env st st1 st2 (rOk vl) (rOk vr)
    hty hch hl rfl hr rfl
  refine ⟨?_, ?_, ?_, ?_, ?_⟩
  · rintro (hop | hop) rfl rfl <;> rw [hstep, hop] <;> exact ⟨_, rfl⟩
  · rintro hop rfl rfl hb
    rw [hstep, hop]
    simp [evalBinop, hb, rOk]
  · rintro hop rfl rfl hb
    rw [hstep, hop]
    simp [evalBinop, hb, rOk]
  · rintro hop (⟨x, rfl⟩ | ⟨x, rfl⟩) <;> rw [hstep, hop]
    · simp [evalBinop, rOk]
    · cases vl <;> simp [evalBinop, rOk]
  · intro q
    by_cases hq : q = 0
    · subst hq
      exact Or.inl rfl
    · exact Or.inr ⟨q < 0, by simp [F64.div, hq]⟩

/-- Witness for C4: `7 / (-2)` truncates toward zero, yielding `-3`. -/
theorem div_mod_semantics_witness :
    eval 2 (astBinop "/" (astIntLit 7) (astIntLit (-2))) 0 store0 =
      some (rOk (VInt (-3)), store0) := by
  have h := div_mod_semantics 1
    (astBinop "/" (astIntLit 7) (astIntLit (-2))) (astIntLit 7)
    (astIntLit (-2)) 0 store0 store0 store0 (VInt 7) (VInt (-2)) 7 (-2)
    rfl rfl rfl rfl
  exact (h.2.1 rfl rfl rfl (by decide)).trans rfl

/-- C5: a switch evaluates its tag once and then only walks the case list:
the empty list yields null; a case whose condition is null (the default)
always matches and runs its body in a fresh child environment with `Break`
swallowed and `Yield`/`Return`/`Error` propagated, never touching the
remaining cases (no fall-through); a case whose condition evaluates to a
non-matching value is skipped in order; a matching case behaves as the
default does. -/
theorem switch_semantics (f : Nat) (node tagE : Ast) (env : Nat)
    (st st1 : Store) (tv : Value)
    (hty : node.ty = .AST_SWITCH) (hcond : node.cond = some tagE)
    (htag : eval f tagE env st = some (rOk tv, st1)) :
    (eval (f + 1) node env st =
        evalCasesGo (eval f) tv env node.children st1) ∧
    (∀ st', evalCasesGo (eval f) tv env [] st' =
        some (rOk VNull, st')) ∧
    (∀ cas rest st' r st2, cas.cond = none →
      evalSeqGo (eval f) cas.children (envNew st' (some env)).1
          (envNew st' (some env)).2 = some (r, st2) →
      evalCasesGo (eval f) tv env (cas :: rest) st' =
        some ((if r.sig = .sBreak then rOk (r.val.getD VNull)
          else if r.sig ≠ .sNone then r
          else rOk (r.val.getD VNull)), st2)) ∧
    (∀ cas rest st' c cv st2, cas.cond = some c →
      eval f c env st' = some (rOk cv, st2) →
      valueEquals tv cv = false →
      evalCasesGo (eval f) tv env (cas :: rest) st' =
        evalCasesGo (eval f) tv env rest st2) ∧
    (∀ cas rest st' c cv st2 r st3, cas.cond = some c →
      eval f c env st' = some (rOk cv, st2) →
      valueEquals tv cv = true →
      evalSeqGo (eval f) cas.children (envNew st2 (some env)).1
          (envNew st2 (some env)).2 = some (r, st3) →
      evalCasesGo (eval f) tv env (cas :: rest) st' =
        some ((if r.sig = .sBreak then rOk (r.val.getD VNull)
          else if r.sig ≠ .sNone then r
          else rOk (r.val.getD VNull)), st3)) := by
  refine ⟨?_, fun st' => rfl, ?_, ?_, ?_⟩
  · show evalCore (eval f) node env st = _
    unfold evalCore
    rw [hty, hcond]
    simp [evalOptGo, htag, rOk]
  · intro cas rest st' r st2 hcnone hbody
    rw [evalCasesGo, hcnone]
    dsimp only
    rw [hbody]
    dsimp only
    split_ifs <;> simp_all
  · intro cas rest st' c cv st2 hcsome hceval hne
    rw [evalCasesGo, hcsome]
    dsimp only
    rw [hceval]
    simp [rOk, hne]
  · intro cas rest st' c cv st2 r st3 hcsome hceval heq hbody
    rw [evalCasesGo, hcsome]
    dsimp only
    rw [hceval]
    simp only [rOk, ne_eq]
    rw [if_neg (by simp), if_pos (by simpa using heq)]
    rw [hbody]
    dsimp only
    split_ifs <;> simp_all

/-- Witness for C5: `switch (1) { case 1: 7; default: 9 }` runs exactly the
first case in a fresh child environment and yields 7. -/
theorem switch_semantics_witness :
    eval 5 (astSwitch (astIntLit 1)
        [astCase (some (astIntLit 1)) [astIntLit 7],
         astCase none [astIntLit 9]]) 0 store0 =
      some (rOk (VInt 7), ⟨[⟨[], none⟩, ⟨[], some 0⟩]⟩) := by
  have h := switch_semantics 4
    (astSwitch (astIntLit 1)
      [astCase (some (astIntLit 1)) [astIntLit 7],
       astCase none [astIntLit 9]])
    (astIntLit 1) 0 store0 store0 (VInt 1) rfl rfl rfl
  rw [h.1]
  rfl

/-- C6 counterexample: two tuple values of identical kind with literally
identical payloads — both are `(1,)` — compare unequal under `==`, although
the claimed rule "identical kind → compare payloads" requires them to be
equal. -/
theorem value_equality_counterexample :
    valueEquals (VTuple [VInt 1] none) (VTuple [VInt 1] none) = false ∧
      (eval 3 (astBinop "==" (astTuple [astIntLit 1])
          (astTuple [astIntLit 1])) 0 store0).map (fun p => p.1.val) =
        some (some (VBool false)) :=
  ⟨rfl, rfl⟩

/-- C6 (amended): `==`/`!=` evaluate to `value_equals` and its negation;
`value_equals` compares payloads for the primitive kinds null, int, float,
bool and string, compares a mixed integer/float pair numerically, and
reports every other combination unequal — including two values of an
identical composite kind, such as two tuples. -/
theorem value_equality_semantics (f : Nat) (node l r : Ast) (env : Nat)
    (st st1 st2 : Store) (vl vr : Value)
    (hty : node.ty = .AST_BINOP) (hch : node.children = [l, r])
    (hl : eval f l env st = some (rOk vl, st1))
    (hr : eval f r env st1 = some (rOk vr, st2)) :
    (node.op = some "==" →
      eval (f + 1) node env st =
        some (rOk (VBool (valueEquals vl vr)), st2)) ∧
    (node.op = some "!=" →
      eval (f + 1) node env st =
        some (rOk (VBool (!valueEquals vl vr)), st2)) ∧
    (valueEquals VNull VNull = true) ∧
    (∀ x y : Int, valueEquals (VInt x) (VInt y) = (x == y)) ∧
    (∀ x y : F64, valueEquals (VFloat x) (VFloat y) = F64.feq x y) ∧
    (∀ (x : Int) (y : F64),
      valueEquals (VInt x) (VFloat y) = F64.feq (F64.ofInt x) y ∧
      valueEquals (VFloat y) (VInt x) = F64.feq y (F64.ofInt x)) ∧
    (∀ x y : Bool, valueEquals (VBool x) (VBool y) = (x == y)) ∧
    (∀ x y : String, valueEquals (VString x) (VString y) = (x == y)) ∧
    (∀ es ns es' ns',
      valueEquals (VTuple es ns) (VTuple es' ns') = false) := by
  have hstep := binop_step f node l r env st st1 st2 (rOk vl) (rOk vr)
    hty hch hl rfl hr rfl
  refine ⟨?_, ?_, rfl, fun x y => rfl, fun x y => rfl,
    fun x y => ⟨rfl, rfl⟩, fun x y => rfl, fun x y => rfl,
    fun es ns es' ns' => rfl⟩
  · intro hop
    rw [hstep, hop]
    simp [evalBinop, rOk]
  · intro hop
    rw [hstep, hop]
    simp [evalBinop, rOk]

/-- Witness for the amended C6: `2 == 2.0` compares numerically and yields
true. -/
theorem value_equality_semantics_witness :
    eval 2 (astBinop "==" (astIntLit 2) (astFloatLit (.fin 2))) 0 store0 =
      some (rOk (VBool true), store0) := by
  have h := value_equality_semantics 1
    (astBinop "==" (astIntLit 2) (astFloatLit (.fin 2))) (astIntLit 2)
    (astFloatLit (.fin 2)) 0 store0 store0 store0 (VInt 2)
    (VFloat (.fin 2)) rfl rfl rfl rfl
  exact (h.1 rfl).trans (by norm_num [valueEquals, F64.feq, F64.ofInt, rOk])

/-- C2 is a code bug: the `AST_IMPORT_DECL` case of `eval` is a TODO stub
that returns null and performs no binding whatsoever (`resolve_import`,
which implements the claimed binding rules, is never called by the
evaluator), so after `import util` the name `util` — and any listed item —
remains undefined.  First conjunct: evaluating any import declaration
leaves the environment store unchanged and yields null; second conjunct:
in the spec's module scenario, referring to the imported name afterwards is
an `undefined variable` error. -/
theorem import_decl_is_stub (f : Nat) (modName : String)
    (aliasN : Option String) (items : List Ast) (env : Nat) (st : Store) :
    eval (f + 1) (astImport modName aliasN items) env st =
        some (rOk VNull, st) ∧
      (eval 2 (astProgram [astImport "util" none [], astIdent "util"]) 0
          store0).map (fun p => p.1.sig) = some .sError :=
  ⟨rfl, rfl⟩

/-- C10: a for-loop whose range expression evaluates (without a signal) to
a value that is neither a tuple nor an integer executes its body zero times
— the store after the whole loop is exactly the store after the range
evaluation, no loop environment having been created — and the loop yields
null with signal `None`; no error is raised. -/
theorem for_loop_non_iterable_range (f : Nat) (node range : Ast)
    (env : Nat) (st st1 : Store) (rv : Value)
    (hty : node.ty = .AST_FOR) (hcond : node.cond = some range)
    (hr : eval f range env st = some (rOk rv, st1))
    (hnt : ∀ es ns, rv ≠ VTuple es ns) (hni : ∀ n, rv ≠ VInt n) :
    eval (f + 1) node env st = some (rOk VNull, st1) := by
  show evalCore (eval f) node env st = _
  unfold evalCore
  rw [hty, hcond]
  simp only [evalOptGo, hr, rOk]
  cases rv with
  | VTuple es ns => exact absurd rfl (hnt es ns)
  | VInt n => exact absurd rfl (hni n)
  | _ => rfl

/-- Witness for C10: a for-loop over the string `"x"` runs zero iterations
and yields null. -/
theorem for_loop_non_iterable_range_witness :
    eval 2 (astFor "i" (astStrLit "x") [astBreak]) 0 store0 =
      some (rOk VNull, store0) :=
  for_loop_non_iterable_range 1 (astFor "i" (astStrLit "x") [astBreak])
    (astStrLit "x") 0 store0 store0 (VString "x") rfl rfl rfl
    (fun es ns h => by cases h) (fun n h => by cases h)

/-- Argument kinds accepted by the numeric branches of the `VAL_TYPE` call
dispatch. -/
def numericArg (a : Value) : Bool :=
  match a with
  | VInt _ | VFloat _ | VString _ => true
  | _ => false

/-- Convertibility of a single argument for a type name, as C9 describes
it: `i`/`u`-prefixed names convert int/float/string, `f`-prefixed names
convert int/float/string, and `"string"` converts anything. -/
def typeConvertible (tname : String) (a : Value) : Bool :=
  ((tname.data.head? = some 'i' ∨ tname.data.head? = some 'u') ∧
    numericArg a) ∨
  (tname.data.head? = some 'f' ∧ numericArg a) ∨ tname = "string"

/-- Every path of the type-conversion dispatch returns signal `None`. -/
theorem typeConvRes_sig (tname : String) (a : Value) :
    (typeConvRes tname a).sig = .sNone := by
  unfold typeConvRes
  dsimp only
  cases a <;> (repeat' split) <;> rfl

/-- A non-convertible single argument falls through every conversion branch
to the trailing `ok(null)`. -/
theorem typeConvRes_nonconv (tname : String) (a : Value)
    (h : typeConvertible tname a = false) :
    typeConvRes tname a = rOk VNull := by
  simp [typeConvertible] at h
  unfold typeConvRes
  dsimp only
  cases a <;> (repeat' split) <;> simp_all [numericArg]

/-- C9: calling a Type value never produces an error signal — the call
always completes with signal `None` — and the result is null whenever the
argument count is not exactly 1 or the single argument is not convertible
for the type name (for example a tuple passed to an `i`-prefixed type, or
any argument to a name that is not `i`/`u`/`f`-prefixed and not
`"string"`). -/
theorem type_call_semantics (f : Nat) (tname : String) (pd : Option PatDef)
    (args : List Value) (line col : Nat) (st : Store) :
    (∃ r st', evalFnCallGo (eval f) (VType tname pd) args line col st =
        some (r, st') ∧ r.sig = .sNone) ∧
    (args.length ≠ 1 →
      evalFnCallGo (eval f) (VType tname pd) args line col st =
        some (rOk VNull, st)) ∧
    (∀ a, args = [a] → typeConvertible tname a = false →
      evalFnCallGo (eval f) (VType tname pd) args line col st =
        some (rOk VNull, st)) := by
  refine ⟨?_, ?_, ?_⟩
  · by_cases hlen : args.length = 1
    · exact ⟨typeConvRes tname (args.getD 0 VNull), st,
        by unfold evalFnCallGo; dsimp only; rw [if_pos hlen],
        typeConvRes_sig _ _⟩
    · exact ⟨rOk VNull, st,
        by unfold evalFnCallGo; dsimp only; rw [if_neg hlen], rfl⟩
  · intro hlen
    unfold evalFnCallGo
    dsimp only
    rw [if_neg hlen]
  · intro a ha hc
    subst ha
    unfold evalFnCallGo
    dsimp only
    rw [if_pos (show ([a] : List Value).length = 1 from rfl)]
    rw [show ([a].getD 0 VNull) = a from rfl, typeConvRes_nonconv tname a hc]

/-- Witness for C9: a tuple passed to the `i32` type converts to null with
signal `None`. -/
theorem type_call_semantics_witness :
    evalFnCallGo (eval 1) (VType "i32" none) [VTuple [] none] 0 0 store0 =
      some (rOk VNull, store0) :=
  (type_call_semantics 1 "i32" none [VTuple [] none] 0 0 store0).2.2
    (VTuple [] none) rfl rfl

theorem strtollDigits_append (l1 l2 : List Char)
    (h : ∀ c ∈ l1, isDigitC c = true) (acc : Nat) :
    strtollDigits acc (l1 ++ l2) = strtollDigits (strtollDigits acc l1) l2 := by
  induction l1 generalizing acc with
  | nil => rfl
  | cons c cs ih =>
      have hc : isDigitC c = true := h c (List.mem_cons_self _ _)
      rw [List.cons_append, strtollDigits, if_pos hc, strtollDigits,
        if_pos hc]
      exact ih (fun d hd => h d (List.mem_cons_of_mem _ hd)) _

theorem decDigitChar_digit (d : Nat) : isDigitC (decDigitChar d) = true := by
  unfold decDigitChar
  split <;> decide

theorem decDigitChar_val (d : Nat) (h : d < 10) :
    digitVal (decDigitChar d) = d := by
  interval_cases d <;> decide

theorem natDecAux_digits (fuel : Nat) : ∀ n, ∀ c ∈ natDecAux fuel n,
    isDigitC c = true := by
  induction fuel with
  | zero => intro n c hc; cases hc
  | succ f ih =>
      intro n c hc
      unfold natDecAux at hc
      split at hc
      · cases hc
      · rcases List.mem_append.mp hc with h1 | h2
        · exact ih _ c h1
        · rw [List.mem_singleton.mp h2]
          exact decDigitChar_digit _

/-- Parsing the most-significant-first decimal digits of `n` recovers `n`
(scaled onto the accumulator). -/
theorem strtollDigits_natDecAux (fuel : Nat) : ∀ n, n ≤ fuel → ∀ acc,
    strtollDigits acc (natDecAux fuel n) =
      acc * 10 ^ (natDecAux fuel n).length + n := by
  induction fuel with
  | zero =>
      intro n hn acc
      have hz : n = 0 := by omega
      subst hz
      simp [natDecAux, strtollDigits]
  | succ f ih =>
      intro n hn acc
      unfold natDecAux
      split
      · simp_all [strtollDigits]
      · rename_i hnz
        rw [strtollDigits_append _ _ (natDecAux_digits f (n / 10))]
        rw [ih (n / 10) (by omega) acc]
        rw [strtollDigits, if_pos (decDigitChar_digit _), strtollDigits,
          decDigitChar_val (n % 10) (Nat.mod_lt _ (by norm_num))]
        rw [List.length_append, List.length_singleton, pow_succ]
        have hdm := Nat.div_add_mod n 10
        generalize (10 : Nat) ^ (natDecAux f (n / 10)).length = k
        ring_nf
        omega

theorem natDecString_digits (n : Nat) :
    ∀ c ∈ (natDecString n).data, isDigitC c = true := by
  unfold natDecString
  split
  · intro c hc
    rw [List.mem_singleton.mp hc]
    decide
  · exact natDecAux_digits (n + 1) n

theorem natDecString_data_ne_nil (n : Nat) : (natDecString n).data ≠ [] := by
  unfold natDecString
  split
  · decide
  · rename_i hnz
    show natDecAux (n + 1) n ≠ []
    intro hnil
    have h := strtollDigits_natDecAux (n + 1) n (by omega) 0
    rw [hnil] at h
    simp [strtollDigits] at h
    exact hnz h.symm

theorem strtollDigits_natDecString (n : Nat) :
    strtollDigits 0 (natDecString n).data = n := by
  unfold natDecString
  split
  · simp_all [strtollDigits, isDigitC, digitVal]
  · show strtollDigits 0 (natDecAux (n + 1) n) = n
    rw [strtollDigits_natDecAux (n + 1) n (by omega) 0]
    simp

theorem not_space_of_digit (c : Char) (h : isDigitC c = true) :
    isSpaceC c = false := by
  simp only [isDigitC, decide_eq_true_eq] at h
  simp only [isSpaceC, decide_eq_false_iff_not, not_or]
  refine ⟨?_, ?_, ?_, ?_, ?_, ?_⟩ <;>
    (intro he; subst he; exact absurd h (by decide))

theorem dropWhile_space_of_digits (l : List Char)
    (h : ∀ c ∈ l, isDigitC c = true) : l.dropWhile isSpaceC = l := by
  cases l with
  | nil => rfl
  | cons c cs =>
      rw [List.dropWhile_cons,
        if_neg (by simp [not_space_of_digit c (h c (List.mem_cons_self _ _))])]

theorem clampI64_eq (v : Int) (h1 : -(2 ^ 63) ≤ v) (h2 : v ≤ 2 ^ 63 - 1) :
    clampI64 v = v := by
  unfold clampI64
  omega

/-- C8: converting any integer in the 64-bit signed range to its string
form with the `string` builtin and back with the `int` builtin recovers the
integer: `int(string(N)) = N`. -/
theorem int_string_roundtrip (N : Int) (h1 : -(2 ^ 63) ≤ N)
    (h2 : N < 2 ^ 63) : builtinInt [builtinString [VInt N]] = VInt N := by
  show VInt (strtollModel (intToDecString N).data) = VInt N
  congr 1
  unfold intToDecString
  by_cases hneg : N < 0
  · rw [if_pos hneg]
    unfold strtollModel
    have hdata : ("-" ++ natDecString (-N).toNat).data =
        '-' :: (natDecString (-N).toNat).data := by
      rw [String.data_append]
      rfl
    rw [hdata, List.dropWhile_cons, if_neg (by decide)]
    dsimp only
    rw [if_pos rfl, strtollDigits_natDecString]
    have hm : (((-N).toNat : Int)) = -N := Int.toNat_of_nonneg (by omega)
    rw [hm, neg_neg]
    exact clampI64_eq N h1 (by omega)
  · rw [if_neg hneg]
    unfold strtollModel
    rw [dropWhile_space_of_digits _ (natDecString_digits N.toNat)]
    obtain ⟨c, cs, hl⟩ :
        ∃ c cs, (natDecString N.toNat).data = c :: cs := by
      cases hd : (natDecString N.toNat).data with
      | nil => exact absurd hd (natDecString_data_ne_nil _)
      | cons c cs => exact ⟨c, cs, rfl⟩
    rw [hl]
    have hcd : isDigitC c = true := by
      have hmem := natDecString_digits N.toNat c
      rw [hl] at hmem
      exact hmem (List.mem_cons_self _ _)
    dsimp only
    rw [if_neg (show ¬c = '-' by intro he; subst he; exact absurd hcd (by decide)),
      if_neg (show ¬c = '+' by intro he; subst he; exact absurd hcd (by decide))]
    rw [← hl, strtollDigits_natDecString]
    have hm : ((N.toNat : Int)) = N := Int.toNat_of_nonneg (by omega)
    rw [hm]
    exact clampI64_eq N h1 (by omega)

/-- Witness for C8 at the boundary value `-2^63`. -/
theorem int_string_roundtrip_witness :
    builtinInt [builtinString [VInt (-(2 ^ 63))]] = VInt (-(2 ^ 63)) :=
  int_string_roundtrip (-(2 ^ 63)) (by norm_num) (by norm_num)

end LangInterp
